import Mathlib

/-!
# hmacsha384: a shallow embedding of `src/hmacsha384.cpp`

The program parses `-k <hex>` and `-d <hex>` from its command line, decodes the
two hexadecimal values with `strtoul(…, 16)`, computes HMAC-SHA-384 through
OpenSSL and prints three `NAME=hex` lines.

Conventions of the embedding.

* A C string is a `List Char`: one element per `char`, without the
  terminating NUL, so `strlen` is `List.length`.  The strings of `argv` hold
  no NUL.  Nothing in the embedding depends on a `char` being below 256.
* A byte (`uint8_t`) is a `Nat`; the conversion `static_cast<uint8_t>` is
  `% 256`.  `unsigned long` is 64 bits wide (LP64), so `ULONG_MAX = 2^64 - 1`.
  The `int` fields never overflow for an `argv` the system can pass.
* Standard output is the `List Char` of everything printed so far.
* A C++ execution that writes past the end of the `new uint8_t[n]` buffer has
  no defined behaviour; the embedding returns `none` at that point.
* Library routines (`strtoul`, `strcmp`, `strncmp`, `printf`) follow ISO C in
  the "C" locale (the program never calls `setlocale`).
* OpenSSL is a parameter of `main` (`HmacProvider`); `openssl` below is the
  provider that computes HMAC-SHA-384 as RFC 2104 and FIPS 180-4 define it.
* Of the two `#if` branches of `main` the embedding follows the one for
  OpenSSL 1.1 and later (`HMAC_CTX_new`).
-/

set_option autoImplicit false

namespace Hmacsha384

/-! ## Constants of the source -/

/-- Source line 36: `const int hmacKeyLen = 256/8;`. -/
def hmacKeyLen : Nat := 256 / 8

/-- Source line 37: `const int hmacResultLen = 384/8;`. -/
def hmacResultLen : Nat := 384 / 8

/-- The constant `ULONG_MAX` of `<climits>` on an LP64 platform. -/
def ULONG_MAX : Nat := 2 ^ 64 - 1

/-- The constant `EXIT_SUCCESS` of `<cstdlib>`. -/
def EXIT_SUCCESS : Nat := 0

/-- The constant `EXIT_FAILURE` of `<cstdlib>`. -/
def EXIT_FAILURE : Nat := 1

/-! ## The C library routines the program calls -/

/-- The `isspace` classification of the "C" locale: space, `\t`, `\n`, `\v`, `\f`, `\r`. -/
def isspace (c : Char) : Bool :=
  c.toNat = 32 || (9 ≤ c.toNat && c.toNat ≤ 13)

/-- The value of a character as a digit in base 16, as `strtoul` reads it
(`0`-`9`, then letters of either case with `a` = 10), or `none`. -/
def digitVal16 (c : Char) : Option Nat :=
  if 48 ≤ c.toNat ∧ c.toNat ≤ 57 then some (c.toNat - 48)
  else if 97 ≤ c.toNat ∧ c.toNat ≤ 102 then some (c.toNat - 87)
  else if 65 ≤ c.toNat ∧ c.toNat ≤ 70 then some (c.toNat - 55)
  else none

/-- The longest run of base-16 digits at the head of a string, as values. -/
def takeDigits16 : List Char → List Nat
  | [] => []
  | c :: cs =>
    match digitVal16 c with
    | some v => v :: takeDigits16 cs
    | none => []

/-- Skip leading white space (first step of `strtoul`). -/
def skipSpace : List Char → List Char
  | [] => []
  | c :: cs => if isspace c then skipSpace cs else c :: cs

/-- Split off an optional sign: the flag is `true` for a leading `-`. -/
def takeSign : List Char → Bool × List Char
  | c :: cs =>
    if c.toNat = 45 then (true, cs)
    else if c.toNat = 43 then (false, cs)
    else (false, c :: cs)
  | [] => (false, [])

/-- For base 16 `strtoul` skips an optional `0x` / `0X` when a hexadecimal
digit follows it. -/
def skipHexMarker : List Char → List Char
  | z :: x :: h :: rest =>
    if z.toNat = 48 ∧ (x.toNat = 120 ∨ x.toNat = 88) ∧ (digitVal16 h).isSome
    then h :: rest else z :: x :: h :: rest
  | s => s

/-- The call `strtoul(s, NULL, 16)` of ISO C with a 64-bit `unsigned long`:
white space, an optional sign, an optional `0x`, then the longest run of
hexadecimal digits.  No digits: the result is 0.  A value that does not fit
gives `ULONG_MAX`; otherwise a leading `-` negates the value in the unsigned
type. -/
def strtoul16 (s : List Char) : Nat :=
  let signed := takeSign (skipSpace s)
  let digits := takeDigits16 (skipHexMarker signed.2)
  let v := digits.foldl (fun acc d => acc * 16 + d) 0
  if ULONG_MAX < v then ULONG_MAX
  else if signed.1 then (2 ^ 64 - v) % 2 ^ 64
  else v

/-- The C string held by a `char` array: the characters before the first NUL. -/
def cstr : List Char → List Char
  | [] => []
  | c :: cs => if c.toNat = 0 then [] else c :: cstr cs

/-- The test `strcmp(a, b) == 0`: the two strings are equal. -/
def strcmpEq (a b : List Char) : Bool := decide (a = b)

/-- The test `strncmp(a, b, n) == 0`: the two strings agree on their first `n`
characters (a string shorter than `n` must then end where the other does). -/
def strncmpEq (a b : List Char) (n : Nat) : Bool := decide (a.take n = b.take n)

/-- One hexadecimal digit in lower case, as `printf("%x")` writes it. -/
def hexDigitChar (n : Nat) : Char :=
  if n < 10 then Char.ofNat (48 + n) else Char.ofNat (87 + n)

/-- The call `printf("%02hhx", b)`: the argument is converted to `unsigned char`
and written in lower-case hexadecimal, padded with zeros to two digits. -/
def printf02hhx (b : Nat) : List Char :=
  [hexDigitChar (b % 256 / 16), hexDigitChar (b % 256 % 16)]

/-! ## The data type of the source -/

/-- Source lines 39-46, `struct ioOptionsType`.  `hmacKey` is the array
`uint8_t hmacKey[hmacKeyLen]`; `hmacData` is the pointer `uint8_t *hmacData`,
`none` for `NULL` and `some buf` for an allocation of `buf.length` bytes. -/
structure ioOptionType where
  hmacKeyArg : Bool
  hmacDataArg : Bool
  hmacKey : List Nat
  hmacData : Option (List Nat)
  hmacDataLen : Nat
deriving DecidableEq, Repr

/-- What `processArgs` leaves behind: its return value, the option record it
filled in and the text it printed. -/
structure ArgsResult where
  rc : Nat
  ioOpt : ioOptionType
  out : List Char
deriving DecidableEq, Repr

/-! ## `showHelp` and `processArgs` -/

/-- Source lines 65-74, `showHelp`: seven `printf` calls. -/
def showHelp (cmdName : List Char) : List Char :=
  "  ".toList ++ cmdName ++ " - HMAC SHA384.\n".toList
  ++ "  Options:\n".toList
  ++ "    -h, --help              : Print help message.\n".toList
  ++ "        --version           : Print program version.\n".toList
  ++ "    -k, --key               : Hex value representing the 48 byte HMAC Key.\n".toList
  ++ "    -d, --data              : Hex value representing the data to be authenticated.\n".toList
  ++ "  \n".toList

/-- Source lines 121-125 and 161-165: `char byteStr[3] = {0}`, filled with the
two characters at `idx*2` and `idx*2+1`, then `strtoul(byteStr, NULL, 16)`. -/
def parsePair (arg : List Char) (idx : Nat) : Nat :=
  strtoul16 (cstr [arg.getD (idx * 2) (Char.ofNat 0), arg.getD (idx * 2 + 1) (Char.ofNat 0),
    Char.ofNat 0])

/-- Source lines 119-137, the `for` loop over the key.  The first argument
counts the iterations that remain (`hmacKeyLen - idx`).  The flag of the result
is `false` when the loop left through the `return 1` of line 133. -/
def keyLoop (arg : List Char) : Nat → Nat → ioOptionType → Bool × ioOptionType
  | 0, _, o => (true, o)
  | n + 1, idx, o =>
    let binVal := parsePair arg idx
    if binVal ≠ ULONG_MAX then
      keyLoop arg n (idx + 1)
        { o with hmacKey := o.hmacKey.set idx (binVal % 256), hmacKeyArg := true }
    else (false, o)

/-- Source lines 159-175, the `for` loop over the data.  The first argument
counts the iterations that remain (`hmacDataLen - idx`).  The flag of the result
is `false` when the loop left through the `return 1` of line 173; the result
is `none` when line 168 writes outside the allocation. -/
def dataLoop (arg : List Char) : Nat → Nat → ioOptionType → Option (Bool × ioOptionType)
  | 0, _, o => some (true, o)
  | n + 1, idx, o =>
    let binVal := parsePair arg idx
    if binVal ≠ ULONG_MAX then
      match o.hmacData with
      | some buf =>
        if idx < buf.length then
          dataLoop arg n (idx + 1) { o with hmacData := some (buf.set idx (binVal % 256)) }
        else none
      | none => none
    else some (false, o)

/-- Source lines 152-157: the length is recomputed, and the buffer is
allocated only while the pointer is still `NULL`. -/
def allocData (arg : List Char) (o : ioOptionType) : ioOptionType :=
  let o1 := { o with hmacDataLen := arg.length / 2 }
  match o1.hmacData with
  | none => { o1 with hmacData := some (List.replicate o1.hmacDataLen 0) }
  | some _ => o1

/-- The test `argv[i+1][0] != '-'` of lines 111 and 149 (the first `char` of an
empty string is its NUL). -/
def notDash (v : List Char) : Bool :=
  match v with
  | [] => true
  | c :: _ => c.toNat ≠ 45

/-- Source lines 92-194, the `while (i < argc)` loop of `processArgs`.  The
list is `argv[i], …, argv[argc-1]`; `cmdName` is `argv[0]`. -/
def processArgsLoop (cmdName : List Char) :
    List (List Char) → ioOptionType → List Char → Option ArgsResult
  | [], o, out => some ⟨0, o, out⟩
  | tok :: rest, o, out =>
    if strcmpEq tok "-h".toList || strcmpEq tok "--help".toList then
      some ⟨2, o, out ++ showHelp cmdName⟩
    else if strncmpEq tok "--version".toList 9 then
      some ⟨2, o, out ++ "  VER: version=1.0\n".toList⟩
    else if strcmpEq tok "-k".toList || strcmpEq tok "--key".toList then
      match rest with
      | v :: rest1 =>
        if notDash v then
          if v.length ≠ hmacKeyLen * 2 then
            some ⟨1, o, out ++ "Error: Invalid HMAC Key parameter length\n".toList⟩
          else
            match keyLoop v hmacKeyLen 0 o with
            | (true, o1) => processArgsLoop cmdName rest1 o1 out
            | (false, o1) =>
              some ⟨1, o1, out ++ "Error: Invalid HMAC Key parameter not Hex Value\n".toList⟩
        else some ⟨1, o, out ++ "Error: Missing HMAC Key parameter\n".toList⟩
      | [] => some ⟨1, o, out ++ "Error: Missing HMAC Key parameter\n".toList⟩
    else if strcmpEq tok "-d".toList || strcmpEq tok "--data".toList then
      match rest with
      | v :: rest1 =>
        if notDash v then
          let o0 := allocData v o
          match dataLoop v o0.hmacDataLen 0 o0 with
          | some (true, o1) => processArgsLoop cmdName rest1 { o1 with hmacDataArg := true } out
          | some (false, o1) =>
            some ⟨1, o1, out ++ "Error: Invalid HMAC Data parameter not Hex Value\n".toList⟩
          | none => none
        else some ⟨1, o, out ++ "Error: Missing HMAC Data parameter\n".toList⟩
      | [] => some ⟨1, o, out ++ "Error: Missing HMAC Data parameter\n".toList⟩
    else
      some ⟨1, o, out ++ "Unknown option: \x27".toList ++ tok ++ "\x27\n".toList⟩

/-- Source lines 87-195, `processArgs(argc, argv, ioOpt)`: the scan starts at
`i = 1` with nothing printed yet. -/
def processArgs (argv : List (List Char)) (ioOpt : ioOptionType) : Option ArgsResult :=
  processArgsLoop (argv.headD []) argv.tail ioOpt []

/-! ## The OpenSSL interface and `main` -/

/-- The HMAC routines of OpenSSL that `main` calls, with the digest fixed to
`EVP_sha384()`.  A context pointer is an `Option Ctx` (`none` is `NULL`); each
routine returns the new state of the context together with its `int` status
(1 for success, 0 for failure).  `HMAC_Final` returns the bytes it wrote to the
output buffer. -/
structure HmacProvider (Ctx : Type) where
  HMAC_CTX_new : Option Ctx
  HMAC_Init_ex : Option Ctx → List Nat → Option Ctx × Nat
  HMAC_Update : Option Ctx → List Nat → Option Ctx × Nat
  HMAC_Final : Option Ctx → List Nat × Nat

/-- The automatic variables `main` never initialises: their contents are
indeterminate when `main` starts. -/
structure Uninit where
  hmacKey : List Nat
  hmacDataLen : Nat
  hmacSha384Result : List Nat

/-- An array of `n` bytes with the given (indeterminate) contents. -/
def arrayOf (n : Nat) (junk : List Nat) : List Nat :=
  (List.range n).map (fun i => junk.getD i 0 % 256)

/-- Bytes written at the start of an array; the rest keeps its contents. -/
def storeAt (arr written : List Nat) : List Nat :=
  (written ++ arr.drop written.length).take arr.length

/-- The printing loops of lines 281-284, 288-291 and 295-298:
`for (idx…) printf("%02hhx", buf[idx])`.  The first argument counts the
iterations that remain. -/
def printHexLoop (buf : List Nat) : Nat → Nat → List Char
  | 0, _ => []
  | n + 1, idx => printf02hhx (buf.getD idx 0) ++ printHexLoop buf n (idx + 1)

/-- What a run of the program leaves behind: its exit status and its standard
output. -/
structure RunResult where
  exitCode : Nat
  out : List Char
deriving DecidableEq, Repr

/-- Source lines 280-299: the three lines of the report. -/
def report (o : ioOptionType) (buf hmacSha384Result : List Nat) : List Char :=
  "HMACKEY=".toList ++ printHexLoop o.hmacKey hmacKeyLen 0 ++ "\n".toList
  ++ "HMACDATA=".toList ++ printHexLoop buf o.hmacDataLen 0 ++ "\n".toList
  ++ "HMACSHA384=".toList ++ printHexLoop hmacSha384Result hmacResultLen 0 ++ "\n".toList

/-- Source lines 249-267: one `HMAC_CTX_new`, one `HMAC_Init_ex` with the
`hmacKeyLen` bytes of the key, one `HMAC_Update` with the `hmacDataLen` bytes of
the data buffer, one `HMAC_Final` into `hmacSha384Result`.  No status is looked
at.  The result is the contents of `hmacSha384Result` afterwards. -/
def computeTag {Ctx : Type} (P : HmacProvider Ctx) (u : Uninit) (o : ioOptionType)
    (buf : List Nat) : List Nat :=
  let ctxPtr := P.HMAC_CTX_new
  let ctx1 := (P.HMAC_Init_ex ctxPtr (o.hmacKey.take hmacKeyLen)).1
  let ctx2 := (P.HMAC_Update ctx1 (buf.take o.hmacDataLen)).1
  storeAt (arrayOf hmacResultLen u.hmacSha384Result) (P.HMAC_Final ctx2).1

/-- Source lines 208-216: the option record when `processArgs` is called.  The
two flags and the pointer are initialised; the key array and the length are
not. -/
def initOpt (u : Uninit) : ioOptionType :=
  { hmacKeyArg := false, hmacDataArg := false, hmacKey := arrayOf hmacKeyLen u.hmacKey,
    hmacData := none, hmacDataLen := u.hmacDataLen }

/-- Source lines 206-304, `main`.  `none` stands for an execution without
defined behaviour (an access outside the data buffer).  `processArgs` sets
`hmacDataArg` only after an allocation, so the pointer is never `NULL` when the
report is reached and the first `none` of the last `match` is not taken on any
run. -/
def main {Ctx : Type} (P : HmacProvider Ctx) (u : Uninit) (argv : List (List Char)) :
    Option RunResult :=
  match processArgs argv (initOpt u) with
  | none => none
  | some r =>
    if r.rc = 1 then some ⟨EXIT_FAILURE, r.out⟩
    else if r.rc = 2 then some ⟨EXIT_SUCCESS, r.out⟩
    else if !r.ioOpt.hmacDataArg then
      some ⟨EXIT_FAILURE, r.out ++ "Error HMAC Data Option Not Supplied\n".toList⟩
    else if !r.ioOpt.hmacKeyArg then
      some ⟨EXIT_FAILURE, r.out ++ "Error HMAC Key Option Not Supplied\n".toList⟩
    else
      match r.ioOpt.hmacData with
      | none => none
      | some buf =>
        if buf.length < r.ioOpt.hmacDataLen then none
        else some ⟨EXIT_SUCCESS, r.out ++ report r.ioOpt buf (computeTag P u r.ioOpt buf)⟩

/-! ## Vocabulary of the specification

Definitions that follow the wording of the specification; the theorems below
compare the embedded code with them. -/

/-- The hexadecimal alphabet of the specification: `0`-`9`, `a`-`f`, `A`-`F`. -/
def isHexChar (c : Char) : Bool :=
  ('0'.toNat ≤ c.toNat && c.toNat ≤ '9'.toNat)
    || ('a'.toNat ≤ c.toNat && c.toNat ≤ 'f'.toNat)
    || ('A'.toNat ≤ c.toNat && c.toNat ≤ 'F'.toNat)

/-- A well-formed hex string: every character is in the hexadecimal alphabet. -/
def wellFormedHex (s : List Char) : Prop := ∀ c ∈ s, isHexChar c = true

/-- The map `hexval` of the specification: `0`-`9` to 0-9, `a`-`f` and `A`-`F`
to 10-15. -/
def hexval (c : Char) : Nat :=
  if '0'.toNat ≤ c.toNat ∧ c.toNat ≤ '9'.toNat then c.toNat - '0'.toNat
  else if 'a'.toNat ≤ c.toNat ∧ c.toNat ≤ 'f'.toNat then c.toNat - 'a'.toNat + 10
  else if 'A'.toNat ≤ c.toNat ∧ c.toNat ≤ 'F'.toNat then c.toNat - 'A'.toNat + 10
  else 0

/-- The reference decoding of the specification: each successive pair of
characters is a big-endian hex byte, `16 * hexval s[2i] + hexval s[2i+1]`. -/
def decodeRef : List Char → List Nat
  | a :: b :: s => (16 * hexval a + hexval b) :: decodeRef s
  | _ => []

/-- The lower-cased string of the specification. -/
def lowercase (s : List Char) : List Char := s.map Char.toLower

/-- A string of lower-case hexadecimal digits (`0`-`9`, `a`-`f`). -/
def lowerHex (s : List Char) : Prop :=
  ∀ c ∈ s, ('0'.toNat ≤ c.toNat ∧ c.toNat ≤ '9'.toNat) ∨ ('a'.toNat ≤ c.toNat ∧ c.toNat ≤ 'f'.toNat)

/-- The text the printing loop writes for a whole byte sequence: two
characters per byte, in order. -/
def hexOfBytes : List Nat → List Char
  | [] => []
  | b :: bs => printf02hhx b ++ hexOfBytes bs

/-- The bytes the decoding loops store for the pairs `idx, …, idx+n-1`. -/
def pairBytes (arg : List Char) : Nat → Nat → List Nat
  | 0, _ => []
  | n + 1, idx => parsePair arg idx % 256 :: pairBytes arg n (idx + 1)

/-- No pair among `idx, …, idx+n-1` makes `strtoul` return `ULONG_MAX`. -/
def pairsAccepted (arg : List Char) : Nat → Nat → Bool
  | 0, _ => true
  | n + 1, idx => decide (parsePair arg idx ≠ ULONG_MAX) && pairsAccepted arg n (idx + 1)

/-- Well-formedness of a hex string can be checked character by character. -/
instance (s : List Char) : Decidable (wellFormedHex s) :=
  inferInstanceAs (Decidable (∀ c ∈ s, isHexChar c = true))

/-! ## HMAC-SHA-384, the function OpenSSL is asked to compute

SHA-384 after FIPS 180-4 (64-bit words as `Nat` below `2^64`, bytes as `Nat`
below 256) and HMAC after RFC 2104 with the 128-byte block of SHA-384. -/

/-- A 64-bit word from its high and low 32-bit halves. -/
def word64 (hi lo : Nat) : Nat := hi * 2 ^ 32 + lo

/-- The 80 round constants of SHA-512 and SHA-384 (FIPS 180-4, section 4.2.3):
the first 64 bits of the fractional parts of the cube roots of the first 80
primes. -/
def sha512K : List Nat :=
  [
    word64 0x428a2f98 0xd728ae22, word64 0x71374491 0x23ef65cd, word64 0xb5c0fbcf 0xec4d3b2f,
    word64 0xe9b5dba5 0x8189dbbc, word64 0x3956c25b 0xf348b538, word64 0x59f111f1 0xb605d019,
    word64 0x923f82a4 0xaf194f9b, word64 0xab1c5ed5 0xda6d8118, word64 0xd807aa98 0xa3030242,
    word64 0x12835b01 0x45706fbe, word64 0x243185be 0x4ee4b28c, word64 0x550c7dc3 0xd5ffb4e2,
    word64 0x72be5d74 0xf27b896f, word64 0x80deb1fe 0x3b1696b1, word64 0x9bdc06a7 0x25c71235,
    word64 0xc19bf174 0xcf692694, word64 0xe49b69c1 0x9ef14ad2, word64 0xefbe4786 0x384f25e3,
    word64 0x0fc19dc6 0x8b8cd5b5, word64 0x240ca1cc 0x77ac9c65, word64 0x2de92c6f 0x592b0275,
    word64 0x4a7484aa 0x6ea6e483, word64 0x5cb0a9dc 0xbd41fbd4, word64 0x76f988da 0x831153b5,
    word64 0x983e5152 0xee66dfab, word64 0xa831c66d 0x2db43210, word64 0xb00327c8 0x98fb213f,
    word64 0xbf597fc7 0xbeef0ee4, word64 0xc6e00bf3 0x3da88fc2, word64 0xd5a79147 0x930aa725,
    word64 0x06ca6351 0xe003826f, word64 0x14292967 0x0a0e6e70, word64 0x27b70a85 0x46d22ffc,
    word64 0x2e1b2138 0x5c26c926, word64 0x4d2c6dfc 0x5ac42aed, word64 0x53380d13 0x9d95b3df,
    word64 0x650a7354 0x8baf63de, word64 0x766a0abb 0x3c77b2a8, word64 0x81c2c92e 0x47edaee6,
    word64 0x92722c85 0x1482353b, word64 0xa2bfe8a1 0x4cf10364, word64 0xa81a664b 0xbc423001,
    word64 0xc24b8b70 0xd0f89791, word64 0xc76c51a3 0x0654be30, word64 0xd192e819 0xd6ef5218,
    word64 0xd6990624 0x5565a910, word64 0xf40e3585 0x5771202a, word64 0x106aa070 0x32bbd1b8,
    word64 0x19a4c116 0xb8d2d0c8, word64 0x1e376c08 0x5141ab53, word64 0x2748774c 0xdf8eeb99,
    word64 0x34b0bcb5 0xe19b48a8, word64 0x391c0cb3 0xc5c95a63, word64 0x4ed8aa4a 0xe3418acb,
    word64 0x5b9cca4f 0x7763e373, word64 0x682e6ff3 0xd6b2b8a3, word64 0x748f82ee 0x5defb2fc,
    word64 0x78a5636f 0x43172f60, word64 0x84c87814 0xa1f0ab72, word64 0x8cc70208 0x1a6439ec,
    word64 0x90befffa 0x23631e28, word64 0xa4506ceb 0xde82bde9, word64 0xbef9a3f7 0xb2c67915,
    word64 0xc67178f2 0xe372532b, word64 0xca273ece 0xea26619c, word64 0xd186b8c7 0x21c0c207,
    word64 0xeada7dd6 0xcde0eb1e, word64 0xf57d4f7f 0xee6ed178, word64 0x06f067aa 0x72176fba,
    word64 0x0a637dc5 0xa2c898a6, word64 0x113f9804 0xbef90dae, word64 0x1b710b35 0x131c471b,
    word64 0x28db77f5 0x23047d84, word64 0x32caab7b 0x40c72493, word64 0x3c9ebe0a 0x15c9bebc,
    word64 0x431d67c4 0x9c100d4c, word64 0x4cc5d4be 0xcb3e42b6, word64 0x597f299c 0xfc657e2a,
    word64 0x5fcb6fab 0x3ad6faec, word64 0x6c44198c 0x4a475817]

/-- The initial hash value of SHA-384 (FIPS 180-4, section 5.3.4). -/
def sha384H0 : List Nat :=
  [
    word64 0xcbbb9d5d 0xc1059ed8, word64 0x629a292a 0x367cd507, word64 0x9159015a 0x3070dd17,
    word64 0x152fecd8 0xf70e5939, word64 0x67332667 0xffc00b31, word64 0x8eb44a87 0x68581511,
    word64 0xdb0c2e0d 0x64f98fa7, word64 0x47b5481d 0xbefa4fa4]

/-- Rotate a 64-bit word right by `n` bits. -/
def rotr64 (x n : Nat) : Nat := ((x >>> n) ||| (x <<< (64 - n))) % 2 ^ 64

/-- The function `Σ0` on 64-bit words. -/
def bigSigma0 (x : Nat) : Nat := rotr64 x 28 ^^^ rotr64 x 34 ^^^ rotr64 x 39

/-- The function `Σ1` on 64-bit words. -/
def bigSigma1 (x : Nat) : Nat := rotr64 x 14 ^^^ rotr64 x 18 ^^^ rotr64 x 41

/-- The function `σ0` on 64-bit words. -/
def smallSigma0 (x : Nat) : Nat := rotr64 x 1 ^^^ rotr64 x 8 ^^^ (x >>> 7)

/-- The function `σ1` on 64-bit words. -/
def smallSigma1 (x : Nat) : Nat := rotr64 x 19 ^^^ rotr64 x 61 ^^^ (x >>> 6)

/-- The function `Ch`: the bits of `y` where `x` is set, those of `z` elsewhere. -/
def shaCh (x y z : Nat) : Nat := (x &&& y) ^^^ ((x ^^^ (2 ^ 64 - 1)) &&& z)

/-- The function `Maj`: the majority of the three bits. -/
def shaMaj (x y z : Nat) : Nat := (x &&& y) ^^^ (x &&& z) ^^^ (y &&& z)

/-- A big-endian byte string as a number. -/
def wordOfBytes (bs : List Nat) : Nat := bs.foldl (fun acc b => acc * 256 + b) 0

/-- The `n` low bytes of a number, big-endian. -/
def bytesOfWord : Nat → Nat → List Nat
  | 0, _ => []
  | n + 1, w => (w / 256 ^ n) % 256 :: bytesOfWord n w

/-- Cut a byte string into `n` pieces of `size` bytes. -/
def chunksOf (size : Nat) : Nat → List Nat → List (List Nat)
  | 0, _ => []
  | n + 1, bs => bs.take size :: chunksOf size n (bs.drop size)

/-- One round of the compression function: the working variables
`a, …, h`, the round constant and the schedule word. -/
def shaRound (st : List Nat) (k w : Nat) : List Nat :=
  match st with
  | [a, b, c, d, e, f, g, h] =>
    let t1 := (h + bigSigma1 e + shaCh e f g + k + w) % 2 ^ 64
    let t2 := (bigSigma0 a + shaMaj a b c) % 2 ^ 64
    [(t1 + t2) % 2 ^ 64, a, b, c, (d + t1) % 2 ^ 64, e, f, g]
  | _ => st

/-- The next window of the message schedule: `W[t+16]` is computed from
`W[t], W[t+1], W[t+9], W[t+14]` and appended. -/
def shaNextWindow (win : List Nat) : List Nat :=
  win.tail ++ [(smallSigma1 (win.getD 14 0) + win.getD 9 0 + smallSigma0 (win.getD 1 0)
    + win.getD 0 0) % 2 ^ 64]

/-- The rounds for the constants that remain; `win` holds `W[t], …, W[t+15]`. -/
def shaRounds : List Nat → List Nat → List Nat → List Nat
  | [], st, _ => st
  | k :: ks, st, win => shaRounds ks (shaRound st k (win.getD 0 0)) (shaNextWindow win)

/-- The compression function on one 128-byte block. -/
def shaCompress (hash block : List Nat) : List Nat :=
  let w16 := (chunksOf 8 16 block).map wordOfBytes
  List.zipWith (fun x y => (x + y) % 2 ^ 64) hash (shaRounds sha512K hash w16)

/-- The padding of FIPS 180-4, section 5.1.2: a `0x80` byte, zeros up to 112
modulo 128, and the bit length on 16 bytes. -/
def shaPad (msg : List Nat) : List Nat :=
  msg ++ [0x80] ++ List.replicate ((128 - (msg.length + 17) % 128) % 128) 0
    ++ bytesOfWord 16 (8 * msg.length)

/-- SHA-384 of a byte string: 48 bytes. -/
def sha384 (msg : List Nat) : List Nat :=
  let padded := shaPad msg
  let hash := (chunksOf 128 (padded.length / 128) padded).foldl shaCompress sha384H0
  (hash.take 6).flatMap (bytesOfWord 8)

/-- HMAC with SHA-384 (RFC 2104): a key longer than the 128-byte block is
hashed first, a shorter key is padded with zeros. -/
def hmacSha384 (key data : List Nat) : List Nat :=
  let k0 := if 128 < key.length then sha384 key else key
  let kpad := k0 ++ List.replicate (128 - k0.length) 0
  sha384 (kpad.map (fun b => b ^^^ 0x5c) ++ sha384 (kpad.map (fun b => b ^^^ 0x36) ++ data))

/-- The state of an OpenSSL HMAC context: the key given to `HMAC_Init_ex` and
the data absorbed so far. -/
structure HmacCtx where
  key : List Nat
  absorbed : List Nat
deriving DecidableEq, Repr

/-- OpenSSL as its documentation describes it, with nothing failing:
`HMAC_CTX_new` returns a context, `HMAC_Init_ex` binds the key, `HMAC_Update`
absorbs bytes, `HMAC_Final` writes HMAC-SHA-384 of the absorbed bytes under the
key; each returns 1.  A `NULL` context makes a call fail. -/
def openssl : HmacProvider HmacCtx where
  HMAC_CTX_new := some ⟨[], []⟩
  HMAC_Init_ex := fun ctx key =>
    match ctx with
    | some _ => (some ⟨key, []⟩, 1)
    | none => (none, 0)
  HMAC_Update := fun ctx bytes =>
    match ctx with
    | some c => (some ⟨c.key, c.absorbed ++ bytes⟩, 1)
    | none => (none, 0)
  HMAC_Final := fun ctx =>
    match ctx with
    | some c => (hmacSha384 c.key c.absorbed, 1)
    | none => ([], 0)

/-- A provider that creates a context and then fails: `HMAC_Init_ex`,
`HMAC_Update` and `HMAC_Final` return 0 and write nothing. -/
def failingProvider : HmacProvider Unit where
  HMAC_CTX_new := some ()
  HMAC_Init_ex := fun ctx _ => (ctx, 0)
  HMAC_Update := fun ctx _ => (ctx, 0)
  HMAC_Final := fun _ => ([], 0)

/-- A provider that behaves as `P` but reports the given statuses from
`HMAC_Init_ex`, `HMAC_Update` and `HMAC_Final`. -/
def withStatus {Ctx : Type} (P : HmacProvider Ctx) (s1 s2 s3 : Nat) : HmacProvider Ctx where
  HMAC_CTX_new := P.HMAC_CTX_new
  HMAC_Init_ex := fun ctx key => ((P.HMAC_Init_ex ctx key).1, s1)
  HMAC_Update := fun ctx bytes => ((P.HMAC_Update ctx bytes).1, s2)
  HMAC_Final := fun ctx => ((P.HMAC_Final ctx).1, s3)

/-! ## Vocabulary for repeated options -/

/-- The token is the key flag, short or long. -/
def isKeyFlag (tok : List Char) : Bool := decide (tok = "-k".toList ∨ tok = "--key".toList)

/-- The token is the data flag, short or long. -/
def isDataFlag (tok : List Char) : Bool := decide (tok = "-d".toList ∨ tok = "--data".toList)

/-- The value of the last option whose flag satisfies `isFlag`, in an argument
list read as flag-value pairs (the shape of every list on which the scan
returns 0). -/
def lastValue (isFlag : List Char → Bool) : List (List Char) → Option (List Char)
  | f :: v :: rest =>
    match lastValue isFlag rest with
    | some w => some w
    | none => if isFlag f then some v else none
  | _ => none

/-! ## Vocabulary for the diagnostics -/

/-- The diagnostic of line 187 for a token. -/
def unknownOption (tok : List Char) : List Char :=
  "Unknown option: \x27".toList ++ tok ++ "\x27\n".toList

/-- The five fixed diagnostics of `processArgs`. -/
def argDiagnostics : List (List Char) :=
  ["Error: Invalid HMAC Key parameter length\n".toList,
   "Error: Invalid HMAC Key parameter not Hex Value\n".toList,
   "Error: Missing HMAC Key parameter\n".toList,
   "Error: Invalid HMAC Data parameter not Hex Value\n".toList,
   "Error: Missing HMAC Data parameter\n".toList]

/-- The seven fixed diagnostics of the program: those of `processArgs` and the
two of `main` for a missing option. -/
def fixedDiagnostics : List (List Char) :=
  argDiagnostics ++
  ["Error HMAC Data Option Not Supplied\n".toList,
   "Error HMAC Key Option Not Supplied\n".toList]

/-- The text is one line that ends in a newline and is not a line of the
report: it starts with none of `HMACKEY=`, `HMACDATA=`, `HMACSHA384=`. -/
def oneDiagnosticLine (text : List Char) : Prop :=
  ∃ line : List Char, text = line ++ "\n".toList ∧ '\n' ∉ line ∧
    line.take 8 ≠ "HMACKEY=".toList ∧ line.take 9 ≠ "HMACDATA=".toList ∧
    line.take 11 ≠ "HMACSHA384=".toList

/-- The key value passes every test of lines 111-137. -/
def keyOk (k : List Char) : Bool :=
  notDash k && decide (k.length = 64) && pairsAccepted k 32 0

/-- The data value passes every test of lines 149-175. -/
def dataOk (d : List Char) : Bool :=
  notDash d && pairsAccepted d (d.length / 2) 0

/-! ## Facts about the library routines -/

/-- A character that `strtoul` reads as a base-16 digit lies in one of the three
ranges `0`-`9`, `a`-`f`, `A`-`F`, and its value is below 16. -/
theorem digitVal16_some {c : Char} {v : Nat} (h : digitVal16 c = some v) :
    v < 16 ∧ ((48 ≤ c.toNat ∧ c.toNat ≤ 57 ∧ v = c.toNat - 48) ∨
      (97 ≤ c.toNat ∧ c.toNat ≤ 102 ∧ v = c.toNat - 87) ∨
      (65 ≤ c.toNat ∧ c.toNat ≤ 70 ∧ v = c.toNat - 55)) := by
  unfold digitVal16 at h
  split_ifs at h with h1 h2 h3 <;> simp at h <;> omega

/-- On two hexadecimal digits followed by the NUL, `strtoul` returns the
big-endian value of the pair. -/
theorem strtoul16_two_digits {a b : Char} {va vb : Nat}
    (ha : digitVal16 a = some va) (hb : digitVal16 b = some vb) :
    strtoul16 (cstr [a, b, Char.ofNat 0]) = 16 * va + vb := by
  have ha1 := digitVal16_some ha
  have hb1 := digitVal16_some hb
  have ha0 : a.toNat ≠ 0 := by omega
  have hb0 : b.toNat ≠ 0 := by omega
  have hsp : isspace a = false := by
    simp [isspace]; omega
  have h45 : a.toNat ≠ 45 := by omega
  have h43 : a.toNat ≠ 43 := by omega
  have hlt : ¬ (18446744073709551615 < va * 16 + vb) := by omega
  simp [cstr, ha0, hb0, strtoul16, skipSpace, hsp, takeSign, h45, h43, skipHexMarker,
    takeDigits16, ha, hb, ULONG_MAX, hlt]
  omega

/-! ## The two decoding loops -/

/-- The decoding loops store one byte per pair. -/
theorem pairBytes_length (arg : List Char) : ∀ n idx, (pairBytes arg n idx).length = n := by
  intro n
  induction n with
  | zero => intro idx; rfl
  | succ n ih => intro idx; simp [pairBytes, ih]

/-- The key loop leaves through line 133 exactly when some pair is refused. -/
theorem keyLoop_flag (arg : List Char) :
    ∀ n idx o, (keyLoop arg n idx o).1 = pairsAccepted arg n idx := by
  intro n
  induction n with
  | zero => intro idx o; rfl
  | succ n ih =>
    intro idx o
    by_cases h : parsePair arg idx = ULONG_MAX
    · simp [keyLoop, pairsAccepted, h]
    · simp [keyLoop, pairsAccepted, h, ih]

/-- When every pair is accepted, the key loop overwrites the `n` array cells
from `idx` on with the decoded bytes and sets `hmacKeyArg`. -/
theorem keyLoop_accept (arg : List Char) :
    ∀ n (done todo : List Nat) (o : ioOptionType), o.hmacKey = done ++ todo → n ≤ todo.length →
      pairsAccepted arg n done.length = true →
      keyLoop arg n done.length o =
        (true, { o with hmacKey := done ++ pairBytes arg n done.length ++ todo.drop n,
                        hmacKeyArg := o.hmacKeyArg || decide (0 < n) }) := by
  intro n
  induction n with
  | zero =>
    intro done todo o ho _ _
    simp [keyLoop, pairBytes, ← ho]
  | succ n ih =>
    intro done todo o ho hn hacc
    cases todo with
    | nil => simp at hn
    | cons t todo =>
      simp only [pairsAccepted, Bool.and_eq_true, decide_eq_true_eq] at hacc
      have hset : o.hmacKey.set done.length (parsePair arg done.length % 256)
          = (done ++ [parsePair arg done.length % 256]) ++ todo := by
        rw [ho]; simp
      have := ih (done ++ [parsePair arg done.length % 256]) todo
        { o with hmacKey := o.hmacKey.set done.length (parsePair arg done.length % 256),
                 hmacKeyArg := true } hset (by simpa using hn) (by simpa using hacc.2)
      simp only [List.length_append, List.length_singleton] at this
      simp [keyLoop, hacc.1, this, pairBytes]

/-- When every pair is accepted and the allocation is large enough, the data
loop overwrites the `n` buffer cells from `idx` on with the decoded bytes. -/
theorem dataLoop_accept (arg : List Char) :
    ∀ n (done todo : List Nat) (o : ioOptionType), o.hmacData = some (done ++ todo) →
      n ≤ todo.length → pairsAccepted arg n done.length = true →
      dataLoop arg n done.length o =
        some (true, { o with hmacData := some (done ++ pairBytes arg n done.length ++ todo.drop n) })
    := by
  intro n
  induction n with
  | zero =>
    intro done todo o ho _ _
    simp [dataLoop, pairBytes, ← ho]
  | succ n ih =>
    intro done todo o ho hn hacc
    cases todo with
    | nil => simp at hn
    | cons t todo =>
      simp only [pairsAccepted, Bool.and_eq_true, decide_eq_true_eq] at hacc
      have := ih (done ++ [parsePair arg done.length % 256]) todo
        { o with hmacData := some ((done ++ [parsePair arg done.length % 256]) ++ todo) } rfl
        (by simpa using hn) (by simpa using hacc.2)
      simp only [List.length_append, List.length_singleton, List.append_assoc,
        List.singleton_append] at this
      simp [dataLoop, hacc.1, ho, this, pairBytes]

/-- The data loop never touches the fields other than the buffer. -/
theorem dataLoop_fields (arg : List Char) :
    ∀ n idx (o o1 : ioOptionType) (b : Bool), dataLoop arg n idx o = some (b, o1) →
      o1.hmacKeyArg = o.hmacKeyArg ∧ o1.hmacDataArg = o.hmacDataArg ∧ o1.hmacKey = o.hmacKey ∧
        o1.hmacDataLen = o.hmacDataLen := by
  intro n
  induction n with
  | zero =>
    intro idx o o1 b h
    simp [dataLoop] at h
    simp [← h.2]
  | succ n ih =>
    intro idx o o1 b h
    by_cases hp : parsePair arg idx = ULONG_MAX
    · simp [dataLoop, hp] at h
      simp [← h.2]
    · cases hd : o.hmacData with
      | none => simp [dataLoop, hp, hd] at h
      | some buf =>
        by_cases hlt : idx < buf.length
        · simp [dataLoop, hp, hd, hlt] at h
          simpa using ih _ _ _ _ h
        · simp [dataLoop, hp, hd, hlt] at h

/-- The key loop never touches the data fields. -/
theorem keyLoop_fields (arg : List Char) :
    ∀ n idx (o : ioOptionType), (keyLoop arg n idx o).2.hmacDataArg = o.hmacDataArg ∧
      (keyLoop arg n idx o).2.hmacData = o.hmacData ∧
      (keyLoop arg n idx o).2.hmacDataLen = o.hmacDataLen ∧
      (keyLoop arg n idx o).2.hmacKey.length = o.hmacKey.length := by
  intro n
  induction n with
  | zero => intro idx o; simp [keyLoop]
  | succ n ih =>
    intro idx o
    by_cases hp : parsePair arg idx = ULONG_MAX
    · simp [keyLoop, hp]
    · have := ih (idx + 1)
        { o with hmacKey := o.hmacKey.set idx (parsePair arg idx % 256), hmacKeyArg := true }
      simpa [keyLoop, hp] using this

/-! ## One step of the scan -/

/-- The test of lines 111 and 149 in terms of the first character. -/
theorem notDash_iff (v : List Char) : notDash v = true ↔ v.head? ≠ some '-' := by
  cases v with
  | nil => simp [notDash]
  | cons c cs =>
    simp only [notDash, List.head?_cons, ne_eq, Option.some.injEq, decide_eq_true_eq]
    constructor
    · intro h hc; exact h (by rw [hc]; rfl)
    · intro h hc
      apply h
      rw [← Char.ofNat_toNat c, hc]

/-- The scan ends with 0 when no argument is left. -/
theorem processArgsLoop_nil (cmd : List Char) (o : ioOptionType) (out : List Char) :
    processArgsLoop cmd [] o out = some ⟨0, o, out⟩ := by
  simp [processArgsLoop]

/-- The key option with a value of the wrong length: lines 114-118. -/
theorem processArgsLoop_key_length (cmd tok v : List Char) (rest : List (List Char))
    (o : ioOptionType) (out : List Char)
    (htok : tok = "-k".toList ∨ tok = "--key".toList) (hdash : notDash v = true)
    (hlen : v.length ≠ 64) :
    processArgsLoop cmd (tok :: v :: rest) o out =
      some ⟨1, o, out ++ "Error: Invalid HMAC Key parameter length\n".toList⟩ := by
  rcases htok with rfl | rfl <;>
    simp [processArgsLoop, strcmpEq, strncmpEq, hdash, hlen, hmacKeyLen]

/-- The key option with a value of 64 characters: lines 119-137. -/
theorem processArgsLoop_key_step (cmd tok v : List Char) (rest : List (List Char))
    (o : ioOptionType) (out : List Char)
    (htok : tok = "-k".toList ∨ tok = "--key".toList) (hdash : notDash v = true)
    (hlen : v.length = 64) :
    processArgsLoop cmd (tok :: v :: rest) o out =
      if (keyLoop v hmacKeyLen 0 o).1 then processArgsLoop cmd rest (keyLoop v hmacKeyLen 0 o).2 out
      else some ⟨1, (keyLoop v hmacKeyLen 0 o).2,
        out ++ "Error: Invalid HMAC Key parameter not Hex Value\n".toList⟩ := by
  rcases hk : keyLoop v hmacKeyLen 0 o with ⟨b, o1⟩
  cases b <;> rcases htok with rfl | rfl <;>
    simp [processArgsLoop, strcmpEq, strncmpEq, hdash, hlen, hmacKeyLen, hk] <;>
    simp [hmacKeyLen] at hk <;> simp [hk]

/-- The data option with a value: lines 151-177. -/
theorem processArgsLoop_data_step (cmd tok v : List Char) (rest : List (List Char))
    (o : ioOptionType) (out : List Char)
    (htok : tok = "-d".toList ∨ tok = "--data".toList) (hdash : notDash v = true) :
    processArgsLoop cmd (tok :: v :: rest) o out =
      match dataLoop v (v.length / 2) 0 (allocData v o) with
      | some (true, o1) => processArgsLoop cmd rest { o1 with hmacDataArg := true } out
      | some (false, o1) =>
        some ⟨1, o1, out ++ "Error: Invalid HMAC Data parameter not Hex Value\n".toList⟩
      | none => none := by
  have hl : (allocData v o).hmacDataLen = v.length / 2 := by
    unfold allocData; cases o.hmacData <;> rfl
  rcases htok with rfl | rfl <;>
    simp [processArgsLoop, strcmpEq, strncmpEq, hdash, hl]

/-! ## The hex codec -/

/-- On the hexadecimal alphabet `strtoul` reads the value `hexval` names. -/
theorem isHexChar_digitVal16 {c : Char} (h : isHexChar c = true) :
    digitVal16 c = some (hexval c) := by
  simp only [isHexChar, Char.reduceToNat, Bool.or_eq_true, Bool.and_eq_true,
    decide_eq_true_eq] at h
  unfold digitVal16 hexval
  simp only [Char.reduceToNat]
  split_ifs <;> first | rfl | (congr 1; omega)

/-- The value of a hexadecimal digit is below 16. -/
theorem hexval_lt {c : Char} (h : isHexChar c = true) : hexval c < 16 :=
  (digitVal16_some (isHexChar_digitVal16 h)).1

/-- Printing the value of a hexadecimal digit gives the digit in lower case. -/
theorem hexDigitChar_hexval {c : Char} (h : isHexChar c = true) :
    hexDigitChar (hexval c) = c.toLower := by
  simp only [isHexChar, Char.reduceToNat, Bool.or_eq_true, Bool.and_eq_true,
    decide_eq_true_eq] at h
  rw [← Char.ofNat_toNat c]
  generalize c.toNat = n at h
  have hn : n < 103 := by omega
  interval_cases n <;> first | omega | decide

/-- Reading a printed digit gives its value back. -/
theorem digitVal16_hexDigitChar {n : Nat} (h : n < 16) :
    digitVal16 (hexDigitChar n) = some n := by
  interval_cases n <;> decide

/-- The printed digits are lower-case hexadecimal digits. -/
theorem hexDigitChar_lower {n : Nat} (h : n < 16) :
    ('0'.toNat ≤ (hexDigitChar n).toNat ∧ (hexDigitChar n).toNat ≤ '9'.toNat) ∨
      ('a'.toNat ≤ (hexDigitChar n).toNat ∧ (hexDigitChar n).toNat ≤ 'f'.toNat) := by
  interval_cases n <;> decide

/-- The pair `idx + 1` of a string is the pair `idx` of the string without its first two characters. -/
theorem parsePair_cons_cons (a b : Char) (s : List Char) (idx : Nat) :
    parsePair (a :: b :: s) (idx + 1) = parsePair s idx := by
  simp [parsePair, Nat.add_mul]

/-- The first pair of a string is made of its first two characters. -/
theorem parsePair_zero (a b : Char) (s : List Char) :
    parsePair (a :: b :: s) 0 = strtoul16 (cstr [a, b, Char.ofNat 0]) := by
  simp [parsePair]

/-- The bytes of the pairs from `idx + 1` on, after dropping the first two characters. -/
theorem pairBytes_cons_cons (a b : Char) (s : List Char) :
    ∀ n idx, pairBytes (a :: b :: s) n (idx + 1) = pairBytes s n idx := by
  intro n
  induction n with
  | zero => intro idx; rfl
  | succ n ih => intro idx; simp [pairBytes, parsePair_cons_cons, ih]

/-- Acceptance of the pairs from `idx + 1` on, after dropping the first two characters. -/
theorem pairsAccepted_cons_cons (a b : Char) (s : List Char) :
    ∀ n idx, pairsAccepted (a :: b :: s) n (idx + 1) = pairsAccepted s n idx := by
  intro n
  induction n with
  | zero => intro idx; rfl
  | succ n ih => intro idx; simp [pairsAccepted, parsePair_cons_cons, ih]

/-- The printing loop over the first `n` cells of a buffer. -/
theorem printHexLoop_eq :
    ∀ n (done todo : List Nat), n ≤ todo.length →
      printHexLoop (done ++ todo) n done.length = hexOfBytes (todo.take n) := by
  intro n
  induction n with
  | zero => intro done todo _; simp [printHexLoop, hexOfBytes]
  | succ n ih =>
    intro done todo hn
    cases todo with
    | nil => simp at hn
    | cons t todo =>
      have := ih (done ++ [t]) todo (by simpa using hn)
      simp only [List.length_append, List.length_singleton, List.append_assoc,
        List.singleton_append] at this
      have hget : (done ++ t :: todo).getD done.length 0 = t := by
        rw [List.getD_eq_getElem?_getD, List.getElem?_append_right (le_refl _)]
        simp
      simp only [printHexLoop, hget, this, List.take_succ_cons, hexOfBytes]

/-- The printing loop over a whole buffer. -/
theorem printHexLoop_all (buf : List Nat) :
    printHexLoop buf buf.length 0 = hexOfBytes buf := by
  simpa using printHexLoop_eq buf.length [] buf (le_refl _)

/-- The printing loop over the first `n` cells, started at index 0. -/
theorem printHexLoop_take (buf : List Nat) (n : Nat) (h : n ≤ buf.length) :
    printHexLoop buf n 0 = hexOfBytes (buf.take n) := by
  simpa using printHexLoop_eq n [] buf h

/-- The printed text has two characters per byte. -/
theorem hexOfBytes_length : ∀ bs : List Nat, (hexOfBytes bs).length = 2 * bs.length := by
  intro bs
  induction bs with
  | nil => rfl
  | cons b bs ih => simp [hexOfBytes, printf02hhx, ih]; omega

/-- The printed text consists of lower-case hexadecimal digits. -/
theorem hexOfBytes_lowerHex : ∀ bs : List Nat, lowerHex (hexOfBytes bs) := by
  intro bs
  induction bs with
  | nil => intro c hc; simp [hexOfBytes] at hc
  | cons b bs ih =>
    intro c hc
    simp only [hexOfBytes, printf02hhx, List.cons_append, List.nil_append, List.mem_cons] at hc
    rcases hc with rfl | rfl | hc
    · exact hexDigitChar_lower (by omega)
    · exact hexDigitChar_lower (by omega)
    · exact ih c hc

/-- Decoding a well-formed hex string of even length: every pair is accepted,
the stored bytes are those of the reference decoding, and printing them gives
the string in lower case. -/
theorem decode_wellFormed :
    ∀ n (s : List Char), s.length = 2 * n → wellFormedHex s →
      pairsAccepted s n 0 = true ∧ pairBytes s n 0 = decodeRef s ∧
        hexOfBytes (decodeRef s) = lowercase s ∧ (decodeRef s).length = n := by
  intro n
  induction n with
  | zero =>
    intro s hs _
    have : s = [] := List.length_eq_zero.mp (by simpa using hs)
    subst this
    simp [pairsAccepted, pairBytes, decodeRef, hexOfBytes, lowercase]
  | succ n ih =>
    intro s hs hw
    match s, hs, hw with
    | a :: b :: s, hs, hw =>
      have ha : isHexChar a = true := hw a (by simp)
      have hb : isHexChar b = true := hw b (by simp)
      have hrest := ih s (by simp at hs; omega) (fun c hc => hw c (by simp [hc]))
      have hp : parsePair (a :: b :: s) 0 = 16 * hexval a + hexval b := by
        rw [parsePair_zero]
        exact strtoul16_two_digits (isHexChar_digitVal16 ha) (isHexChar_digitVal16 hb)
      have hla := hexval_lt ha
      have hlb := hexval_lt hb
      have hm : (16 * hexval a + hexval b) % 256 = 16 * hexval a + hexval b :=
        Nat.mod_eq_of_lt (by omega)
      refine ⟨?_, ?_, ?_, ?_⟩
      · simp only [pairsAccepted, pairsAccepted_cons_cons, hrest.1, Bool.and_true,
          decide_eq_true_eq, hp, ULONG_MAX]
        omega
      · simp only [pairBytes, pairBytes_cons_cons, hrest.2.1, hp, hm, decodeRef]
      · have h1 : (16 * hexval a + hexval b) % 256 / 16 = hexval a := by omega
        have h2 : (16 * hexval a + hexval b) % 256 % 16 = hexval b := by omega
        simp only [decodeRef, hexOfBytes, printf02hhx, h1, h2, hrest.2.2.1, lowercase,
          hexDigitChar_hexval ha, hexDigitChar_hexval hb, List.map_cons, List.cons_append,
          List.nil_append]
      · simp [decodeRef, hrest.2.2.2]
    | [], hs, _ => simp at hs
    | [_], hs, _ => simp at hs; omega

/-- Decoding what the printing loop wrote gives the bytes back. -/
theorem decode_hexOfBytes :
    ∀ bs : List Nat, (∀ x ∈ bs, x < 256) →
      pairsAccepted (hexOfBytes bs) bs.length 0 = true ∧
        pairBytes (hexOfBytes bs) bs.length 0 = bs := by
  intro bs
  induction bs with
  | nil => intro _; simp [pairsAccepted, pairBytes]
  | cons x bs ih =>
    intro hb
    have hx : x < 256 := hb x (by simp)
    have hrest := ih (fun y hy => hb y (by simp [hy]))
    have hp : parsePair (hexOfBytes (x :: bs)) 0 = x := by
      simp only [hexOfBytes, printf02hhx, List.cons_append, List.nil_append, parsePair_zero]
      rw [strtoul16_two_digits (digitVal16_hexDigitChar (by omega))
        (digitVal16_hexDigitChar (by omega))]
      omega
    constructor
    · simp only [List.length_cons, pairsAccepted, hp, decide_eq_true_eq, Bool.and_eq_true,
        ULONG_MAX]
      refine ⟨by omega, ?_⟩
      simp only [hexOfBytes, printf02hhx, List.cons_append, List.nil_append,
        pairsAccepted_cons_cons]
      exact hrest.1
    · simp only [List.length_cons, pairBytes, hp, Nat.mod_eq_of_lt hx]
      simp only [hexOfBytes, printf02hhx, List.cons_append, List.nil_append,
        pairBytes_cons_cons]
      rw [hrest.2]

/-! ## Whole options and whole runs -/

/-- An array of `n` bytes has `n` cells. -/
theorem arrayOf_length (n : Nat) (junk : List Nat) : (arrayOf n junk).length = n := by
  simp [arrayOf]

/-- The key array has 32 cells when `processArgs` is called. -/
theorem initOpt_hmacKey_length (u : Uninit) : (initOpt u).hmacKey.length = 32 := by
  simp [initOpt, arrayOf_length, hmacKeyLen]

/-- A hex string does not begin with `-`. -/
theorem wellFormedHex_notDash {s : List Char} (h : wellFormedHex s) : notDash s = true := by
  cases s with
  | nil => rfl
  | cons c cs =>
    have hc := h c (by simp)
    simp only [isHexChar, Char.reduceToNat, Bool.or_eq_true, Bool.and_eq_true,
      decide_eq_true_eq] at hc
    simp only [notDash, ne_eq, decide_eq_true_eq]
    omega

/-- What the printing loop writes does not begin with `-`. -/
theorem hexOfBytes_notDash (bs : List Nat) : notDash (hexOfBytes bs) = true := by
  cases bs with
  | nil => rfl
  | cons b bs =>
    have := hexDigitChar_lower (n := b % 256 / 16) (by omega)
    simp only [Char.reduceToNat] at this
    simp only [hexOfBytes, printf02hhx, List.cons_append, notDash, ne_eq, decide_eq_true_eq]
    omega

/-- A key option whose 32 pairs are all accepted stores the 32 decoded bytes
and the scan goes on. -/
theorem processArgsLoop_key_decoded (cmd tok v : List Char) (rest : List (List Char))
    (o : ioOptionType) (out : List Char)
    (htok : tok = "-k".toList ∨ tok = "--key".toList) (hdash : notDash v = true)
    (hlen : v.length = 64) (hacc : pairsAccepted v 32 0 = true) (ho : o.hmacKey.length = 32) :
    processArgsLoop cmd (tok :: v :: rest) o out =
      processArgsLoop cmd rest { o with hmacKey := pairBytes v 32 0, hmacKeyArg := true } out := by
  have h := keyLoop_accept v 32 [] o.hmacKey o rfl (by omega) hacc
  have hd : List.drop 32 o.hmacKey = [] := List.drop_of_length_le (by omega)
  simp only [List.length_nil, List.nil_append, hd, List.append_nil, Nat.ofNat_pos, decide_True,
    Bool.or_true] at h
  rw [processArgsLoop_key_step cmd tok v rest o out htok hdash hlen]
  simp [hmacKeyLen, h]

/-- A data option whose pairs are all accepted, met while the pointer is still
`NULL`, allocates the buffer and stores the decoded bytes. -/
theorem processArgsLoop_data_decoded (cmd tok v : List Char) (rest : List (List Char))
    (o : ioOptionType) (out : List Char)
    (htok : tok = "-d".toList ∨ tok = "--data".toList) (hdash : notDash v = true)
    (hacc : pairsAccepted v (v.length / 2) 0 = true) (ho : o.hmacData = none) :
    processArgsLoop cmd (tok :: v :: rest) o out =
      processArgsLoop cmd rest
        { o with hmacData := some (pairBytes v (v.length / 2) 0), hmacDataLen := v.length / 2,
                 hmacDataArg := true } out := by
  have ha : allocData v o =
      { o with hmacData := some (List.replicate (v.length / 2) 0),
               hmacDataLen := v.length / 2 } := by
    simp [allocData, ho]
  have h := dataLoop_accept v (v.length / 2) [] (List.replicate (v.length / 2) 0)
    (allocData v o) (by simp [ha]) (by simp) hacc
  rw [processArgsLoop_data_step cmd tok v rest o out htok hdash]
  simp only [List.length_nil] at h
  rw [h]
  simp [ha]

/-- The report is reached when `processArgs` returns 0 with both flags set and
the buffer holds `hmacDataLen` bytes. -/
theorem main_report {Ctx : Type} (P : HmacProvider Ctx) (u : Uninit) (argv : List (List Char))
    (o : ioOptionType) (out : List Char) (buf : List Nat)
    (h : processArgs argv (initOpt u) = some ⟨0, o, out⟩)
    (hk : o.hmacKeyArg = true) (hd : o.hmacDataArg = true) (hb : o.hmacData = some buf)
    (hl : o.hmacDataLen ≤ buf.length) :
    main P u argv = some ⟨EXIT_SUCCESS, out ++ report o buf (computeTag P u o buf)⟩ := by
  simp [main, h, hk, hd, hb, Nat.not_lt.mpr hl]

/-- The printing loop writes two characters per iteration. -/
theorem printHexLoop_length (buf : List Nat) :
    ∀ n idx, (printHexLoop buf n idx).length = 2 * n := by
  intro n
  induction n with
  | zero => intro idx; rfl
  | succ n ih => intro idx; simp [printHexLoop, printf02hhx, ih]; omega

/-- The printing loop writes lower-case hexadecimal digits only. -/
theorem printHexLoop_lowerHex (buf : List Nat) :
    ∀ n idx, lowerHex (printHexLoop buf n idx) := by
  intro n
  induction n with
  | zero => intro idx c hc; simp [printHexLoop] at hc
  | succ n ih =>
    intro idx c hc
    simp only [printHexLoop, printf02hhx, List.cons_append, List.nil_append, List.mem_cons] at hc
    rcases hc with rfl | rfl | hc
    · exact hexDigitChar_lower (by omega)
    · exact hexDigitChar_lower (by omega)
    · exact ih (idx + 1) c hc

/-- A scan that returns 0 has printed nothing: every `printf` of `processArgs`
is followed by a `return` of 1 or 2. -/
theorem processArgsLoop_rc0_out (cmd : List Char) :
    ∀ (n : Nat) (args : List (List Char)) (o : ioOptionType) (out : List Char) (r : ArgsResult),
      args.length ≤ n → processArgsLoop cmd args o out = some r → r.rc = 0 → r.out = out := by
  intro n
  induction n with
  | zero =>
    intro args o out r hn h hr
    have : args = [] := List.length_eq_zero.mp (by omega)
    subst this
    simp [processArgsLoop] at h
    simp [← h]
  | succ n ih =>
    intro args o out r hn h hr
    match args, hn, h with
    | [], _, h =>
      simp [processArgsLoop] at h
      simp [← h]
    | [tok], _, h =>
      simp only [processArgsLoop] at h
      split_ifs at h <;> simp at h <;> (subst h; simp at hr)
    | tok :: v :: rest, hn, h =>
      simp only [processArgsLoop] at h
      split_ifs at h
      all_goals first
        | (simp at h; subst h; simp at hr)
        | (split at h
           · exact ih rest _ out r (by simp at hn; omega) h hr
           · simp at h; subst h; simp at hr
           all_goals (try simp at h))

/-- The bytes of the reference decoding, by index. -/
theorem decodeRef_getD (d : Char) :
    ∀ (n : Nat) (s : List Char) (i : Nat), s.length ≤ n → 2 * i + 1 < s.length →
      (decodeRef s).getD i 0 = 16 * hexval (s.getD (2 * i) d) + hexval (s.getD (2 * i + 1) d) := by
  intro n
  induction n with
  | zero => intro s i hn h; omega
  | succ n ih =>
    intro s i hn h
    match s, hn, h with
    | [], _, h => simp at h
    | [_], _, h => simp at h
    | a :: b :: s, hn, h =>
      cases i with
      | zero => simp [decodeRef]
      | succ i =>
        have := ih s i (by simp at hn; omega) (by simp at h; omega)
        have e1 : 2 * (i + 1) = 2 * i + 1 + 1 := by omega
        have e2 : 2 * (i + 1) + 1 = 2 * i + 1 + 1 + 1 := by omega
        simp only [decodeRef, List.getD_cons_succ, this, e1, e2]

/-! ## The length of the tag -/

/-- The big-endian form of a word on `n` bytes has `n` bytes. -/
theorem bytesOfWord_length : ∀ n w, (bytesOfWord n w).length = n := by
  intro n
  induction n with
  | zero => intro w; rfl
  | succ n ih => intro w; simp [bytesOfWord, ih]

/-- A round keeps the eight working variables. -/
theorem shaRound_length (st : List Nat) (k w : Nat) (h : st.length = 8) :
    (shaRound st k w).length = 8 := by
  match st, h with
  | [_, _, _, _, _, _, _, _], _ => rfl

/-- The rounds keep the eight working variables. -/
theorem shaRounds_length :
    ∀ (ks st win : List Nat), st.length = 8 → (shaRounds ks st win).length = 8 := by
  intro ks
  induction ks with
  | nil => intro st win h; simpa [shaRounds] using h
  | cons k ks ih =>
    intro st win h
    simpa [shaRounds] using ih _ _ (shaRound_length st k _ h)

/-- The compression function returns eight words. -/
theorem shaCompress_length (hash block : List Nat) (h : hash.length = 8) :
    (shaCompress hash block).length = 8 := by
  simp [shaCompress, List.length_zipWith, shaRounds_length _ _ _ h, h]

/-- Hashing any number of blocks leaves eight words. -/
theorem foldl_shaCompress_length :
    ∀ (blocks : List (List Nat)) (hash : List Nat), hash.length = 8 →
      (blocks.foldl shaCompress hash).length = 8 := by
  intro blocks
  induction blocks with
  | nil => intro hash h; simpa using h
  | cons b bs ih => intro hash h; simpa using ih _ (shaCompress_length hash b h)

/-- SHA-384 returns 48 bytes. -/
theorem sha384_length (msg : List Nat) : (sha384 msg).length = 48 := by
  have h := foldl_shaCompress_length
    (chunksOf 128 ((shaPad msg).length / 128) (shaPad msg)) sha384H0 rfl
  unfold sha384
  simp only
  generalize (chunksOf 128 ((shaPad msg).length / 128) (shaPad msg)).foldl shaCompress sha384H0
    = hash at h ⊢
  match hash, h with
  | [a, b, c, d, e, f, g, hh], _ =>
    simp [List.flatMap, bytesOfWord_length]

/-- HMAC-SHA-384 returns 48 bytes. -/
theorem hmacSha384_length (key data : List Nat) : (hmacSha384 key data).length = 48 := by
  unfold hmacSha384
  exact sha384_length _

/-- With OpenSSL working, the result buffer holds HMAC-SHA-384 of the 32 key
bytes and the `hmacDataLen` data bytes. -/
theorem computeTag_openssl (u : Uninit) (o : ioOptionType) (buf : List Nat) :
    computeTag openssl u o buf =
      hmacSha384 (o.hmacKey.take hmacKeyLen) (buf.take o.hmacDataLen) := by
  have hl := hmacSha384_length (o.hmacKey.take hmacKeyLen) (buf.take o.hmacDataLen)
  simp only [computeTag, openssl, storeAt, List.nil_append]
  rw [List.drop_of_length_le (by rw [hl, arrayOf_length]; decide), List.append_nil,
    List.take_of_length_le (by rw [hl, arrayOf_length]; decide)]

/-- A run in which `processArgs` returned 0 and `main` exited with
`EXIT_SUCCESS` went through the report: both flags are set, the buffer holds
`hmacDataLen` bytes and the output is the report. -/
theorem main_success_inv {Ctx : Type} (P : HmacProvider Ctx) (u : Uninit)
    (argv : List (List Char)) (o : ioOptionType) (out : List Char) (res : RunResult)
    (hargs : processArgs argv (initOpt u) = some ⟨0, o, out⟩)
    (hrun : main P u argv = some res) (hexit : res.exitCode = EXIT_SUCCESS) :
    ∃ buf, o.hmacData = some buf ∧ o.hmacKeyArg = true ∧ o.hmacDataArg = true ∧
      o.hmacDataLen ≤ buf.length ∧ out = [] ∧
      res = ⟨EXIT_SUCCESS, report o buf (computeTag P u o buf)⟩ := by
  have hout : out = [] := by
    have := processArgsLoop_rc0_out (argv.headD []) argv.tail.length argv.tail (initOpt u) []
      ⟨0, o, out⟩ (le_refl _) hargs rfl
    simpa using this
  subst hout
  simp only [main, hargs] at hrun
  cases hbuf : o.hmacData with
  | none =>
    cases hd : o.hmacDataArg <;> cases hk : o.hmacKeyArg <;>
      simp [hbuf, hd, hk] at hrun <;> (subst hrun; simp [EXIT_SUCCESS, EXIT_FAILURE] at hexit)
  | some buf =>
    cases hd : o.hmacDataArg <;> cases hk : o.hmacKeyArg <;>
      simp [hbuf, hd, hk] at hrun <;>
      first
        | (subst hrun; simp [EXIT_SUCCESS, EXIT_FAILURE] at hexit)
        | (obtain ⟨hl, hrun⟩ := hrun
           subst hrun
           exact ⟨buf, rfl, rfl, rfl, hl, rfl, rfl⟩)

/-- The run of scenario S1 with OpenSSL working: key 32 bytes `0x0b`, data the
ASCII text `Hi There`. -/
theorem main_S1_eval :
    main openssl ⟨[], 0, []⟩ ["hmacsha384".toList, "-k".toList,
        "0b0b0b0b0b0b0b0b0b0b0b0b0b0b0b0b0b0b0b0b0b0b0b0b0b0b0b0b0b0b0b0b".toList,
        "-d".toList, "4869205468657265".toList] =
      some ⟨EXIT_SUCCESS,
        ("HMACKEY=0b0b0b0b0b0b0b0b0b0b0b0b0b0b0b0b0b0b0b0b0b0b0b0b0b0b0b0b0b0b0b0b\n"
          ++ "HMACDATA=4869205468657265\n"
          ++ "HMACSHA384=c3f1615943d1dd07a83bb644b97fb3dc2b8a936aa5389de2a3e9dd91bc3bae0d"
          ++ "0c30334a301733aa54ed5e1f0769e868\n").toList⟩ := by
  decide!

/-- The scan of scenario S1. -/
theorem processArgs_S1_eval :
    processArgs ["hmacsha384".toList, "-k".toList,
        "0b0b0b0b0b0b0b0b0b0b0b0b0b0b0b0b0b0b0b0b0b0b0b0b0b0b0b0b0b0b0b0b".toList,
        "-d".toList, "4869205468657265".toList] (initOpt ⟨[], 0, []⟩) =
      some ⟨0, ⟨true, true, List.replicate 32 11, some [72, 105, 32, 84, 104, 101, 114, 101], 8⟩,
        []⟩ := by
  decide!

/-- Dropping the last element does not change the elements before it. -/
theorem dropLast_getD_of_lt {α : Type} (l : List α) (i : Nat) (d : α)
    (h : i + 1 < l.length) : l.dropLast.getD i d = l.getD i d := by
  rw [List.getD_eq_getElem?_getD, List.getD_eq_getElem?_getD, List.dropLast_eq_take,
    List.getElem?_take_of_lt (by omega)]

/-- The pairs that lie before the last character are the same with and without
that character. -/
theorem parsePair_dropLast (v : List Char) (i : Nat) (h : i * 2 + 2 < v.length) :
    parsePair v.dropLast i = parsePair v i := by
  unfold parsePair
  rw [dropLast_getD_of_lt v (i * 2) _ (by omega),
    dropLast_getD_of_lt v (i * 2 + 1) _ (by omega)]

/-- The data loop only looks at the pairs it is asked to decode. -/
theorem dataLoop_congr (a b : List Char) :
    ∀ n idx o, (∀ i, idx ≤ i → i < idx + n → parsePair a i = parsePair b i) →
      dataLoop a n idx o = dataLoop b n idx o := by
  intro n
  induction n with
  | zero => intro idx o _; rfl
  | succ n ih =>
    intro idx o h
    have h0 := h idx (le_refl _) (by omega)
    have hrec : ∀ o1, dataLoop a n (idx + 1) o1 = dataLoop b n (idx + 1) o1 :=
      fun o1 => ih (idx + 1) o1 (fun i h1 h2 => h i (by omega) (by omega))
    simp only [dataLoop, h0, hrec]

/-! ## When `strtoul` returns `ULONG_MAX` -/

/-- On a string of at most two characters `strtoul(…, 16)` returns `ULONG_MAX`
for the text `-1` and for nothing else: one or two digits give at most 255, a
sign with one digit `d` gives `d` or `2^64 - d`, and anything else gives 0. -/
theorem strtoul16_pair_eq_ULONG_MAX (a b : Char) :
    strtoul16 (cstr [a, b, Char.ofNat 0]) = ULONG_MAX ↔ a.toNat = 45 ∧ b.toNat = 49 := by
  have hz : (Char.ofNat 0).toNat = 0 := by decide
  by_cases ha0 : a.toNat = 0
  · simp [cstr, ha0, strtoul16, skipSpace, takeSign, skipHexMarker, takeDigits16, ULONG_MAX]
  by_cases hb0 : b.toNat = 0
  · simp only [cstr, ha0, hb0, hz, if_true, if_false]
    by_cases hsa : isspace a = true
    · simp [strtoul16, skipSpace, hsa, takeSign, skipHexMarker, takeDigits16, ULONG_MAX]
    · simp only [Bool.not_eq_true] at hsa
      by_cases h45 : a.toNat = 45
      · simp [strtoul16, skipSpace, hsa, takeSign, h45, skipHexMarker, takeDigits16, ULONG_MAX]
      · by_cases h43 : a.toNat = 43
        · simp [strtoul16, skipSpace, hsa, takeSign, h43, skipHexMarker, takeDigits16, ULONG_MAX]
        · cases hd : digitVal16 a with
          | none =>
            simp [strtoul16, skipSpace, hsa, takeSign, h45, h43, skipHexMarker, takeDigits16,
              hd, ULONG_MAX]
          | some va =>
            have := (digitVal16_some hd).1
            simp [strtoul16, skipSpace, hsa, takeSign, h45, h43, skipHexMarker, takeDigits16,
              hd, ULONG_MAX]
            omega
  · simp only [cstr, ha0, hb0, hz, if_true, if_false]
    by_cases hsa : isspace a = true
    · have ha45 : a.toNat ≠ 45 := by
        simp [isspace] at hsa; omega
      by_cases hsb : isspace b = true
      · simp [strtoul16, skipSpace, hsa, hsb, takeSign, skipHexMarker, takeDigits16, ULONG_MAX,
          ha45]
      · simp only [Bool.not_eq_true] at hsb
        by_cases h45 : b.toNat = 45
        · simp [strtoul16, skipSpace, hsa, hsb, takeSign, h45, skipHexMarker, takeDigits16,
            ULONG_MAX, ha45]
        · by_cases h43 : b.toNat = 43
          · simp [strtoul16, skipSpace, hsa, hsb, takeSign, h43, skipHexMarker, takeDigits16,
              ULONG_MAX, ha45]
          · cases hd : digitVal16 b with
            | none =>
              simp [strtoul16, skipSpace, hsa, hsb, takeSign, h45, h43, skipHexMarker,
                takeDigits16, hd, ULONG_MAX, ha45]
            | some vb =>
              have := (digitVal16_some hd).1
              simp [strtoul16, skipSpace, hsa, hsb, takeSign, h45, h43, skipHexMarker,
                takeDigits16, hd, ULONG_MAX, ha45]
              omega
    · simp only [Bool.not_eq_true] at hsa
      by_cases h45 : a.toNat = 45
      · cases hd : digitVal16 b with
        | none =>
          have hb49 : b.toNat ≠ 49 := by
            intro h
            simp [digitVal16, h] at hd
          simp [strtoul16, skipSpace, hsa, takeSign, h45, skipHexMarker, takeDigits16, hd,
            ULONG_MAX, hb49]
        | some vb =>
          have := digitVal16_some hd
          simp [strtoul16, skipSpace, hsa, takeSign, h45, skipHexMarker, takeDigits16, hd,
            ULONG_MAX]
          omega
      · by_cases h43 : a.toNat = 43
        · cases hd : digitVal16 b with
          | none =>
            simp [strtoul16, skipSpace, hsa, takeSign, h43, skipHexMarker, takeDigits16, hd,
              ULONG_MAX]
          | some vb =>
            have := (digitVal16_some hd).1
            simp [strtoul16, skipSpace, hsa, takeSign, h43, skipHexMarker, takeDigits16, hd,
              ULONG_MAX]
            omega
        · cases hda : digitVal16 a with
          | none =>
            simp [strtoul16, skipSpace, hsa, takeSign, h45, h43, skipHexMarker, takeDigits16,
              hda, ULONG_MAX]
          | some va =>
            have := (digitVal16_some hda).1
            cases hdb : digitVal16 b with
            | none =>
              simp [strtoul16, skipSpace, hsa, takeSign, h45, h43, skipHexMarker, takeDigits16,
                hda, hdb, ULONG_MAX]
              omega
            | some vb =>
              have := (digitVal16_some hdb).1
              simp [strtoul16, skipSpace, hsa, takeSign, h45, h43, skipHexMarker, takeDigits16,
                hda, hdb, ULONG_MAX]
              omega

/-- A character is determined by its code. -/
theorem char_eq_of_toNat {c d : Char} (h : c.toNat = d.toNat) : c = d := by
  rw [← Char.ofNat_toNat c, ← Char.ofNat_toNat d, h]

/-- A pair inside the string is refused exactly when it is the text `-1`. -/
theorem parsePair_eq_ULONG_MAX (v : List Char) (i : Nat) (h : 2 * i + 1 < v.length) :
    parsePair v i = ULONG_MAX ↔ v.getD (2 * i) ' ' = '-' ∧ v.getD (2 * i + 1) ' ' = '1' := by
  have e1 : i * 2 = 2 * i := by omega
  have g1 : ∀ d : Char, v.getD (2 * i) d = v[2 * i] := by
    intro d; rw [List.getD_eq_getElem?_getD, List.getElem?_eq_getElem (by omega)]; rfl
  have g2 : ∀ d : Char, v.getD (2 * i + 1) d = v[2 * i + 1] := by
    intro d; rw [List.getD_eq_getElem?_getD, List.getElem?_eq_getElem (by omega)]; rfl
  unfold parsePair
  rw [e1, strtoul16_pair_eq_ULONG_MAX, g1, g2, g1, g2]
  constructor
  · rintro ⟨h1, h2⟩
    exact ⟨char_eq_of_toNat (by rw [h1]; rfl), char_eq_of_toNat (by rw [h2]; rfl)⟩
  · rintro ⟨h1, h2⟩
    rw [h1, h2]
    exact ⟨rfl, rfl⟩

/-- Every pair is accepted exactly when no pair makes `strtoul` return
`ULONG_MAX`. -/
theorem pairsAccepted_iff (arg : List Char) :
    ∀ n idx, pairsAccepted arg n idx = true ↔
      ∀ i, idx ≤ i → i < idx + n → parsePair arg i ≠ ULONG_MAX := by
  intro n
  induction n with
  | zero => intro idx; simp [pairsAccepted]; intro i h1 h2; omega
  | succ n ih =>
    intro idx
    simp only [pairsAccepted, Bool.and_eq_true, decide_eq_true_eq, ih]
    constructor
    · rintro ⟨h0, hr⟩ i h1 h2
      by_cases he : i = idx
      · rw [he]; exact h0
      · exact hr i (by omega) (by omega)
    · intro h
      exact ⟨h idx (le_refl _) (by omega), fun i h1 h2 => h i (by omega) (by omega)⟩

/-! ## Inverting the scan -/

/-- A flag with no value behind it: lines 139-143 and 179-183. -/
theorem processArgsLoop_missing (cmd tok : List Char) (rest : List (List Char))
    (o : ioOptionType) (out : List Char)
    (hrest : rest = [] ∨ ∃ v rest1, rest = v :: rest1 ∧ notDash v = false) :
    ((tok = "-k".toList ∨ tok = "--key".toList) →
      processArgsLoop cmd (tok :: rest) o out =
        some ⟨1, o, out ++ "Error: Missing HMAC Key parameter\n".toList⟩) ∧
    ((tok = "-d".toList ∨ tok = "--data".toList) →
      processArgsLoop cmd (tok :: rest) o out =
        some ⟨1, o, out ++ "Error: Missing HMAC Data parameter\n".toList⟩) := by
  constructor
  · intro htok
    rcases hrest with rfl | ⟨v, rest1, rfl, hv⟩
    · rcases htok with rfl | rfl <;> simp [processArgsLoop, strcmpEq, strncmpEq]
    · rcases htok with rfl | rfl <;> simp [processArgsLoop, strcmpEq, strncmpEq, hv]
  · intro htok
    rcases hrest with rfl | ⟨v, rest1, rfl, hv⟩
    · rcases htok with rfl | rfl <;> simp [processArgsLoop, strcmpEq, strncmpEq]
    · rcases htok with rfl | rfl <;> simp [processArgsLoop, strcmpEq, strncmpEq, hv]

/-- The help option: lines 95-100. -/
theorem processArgsLoop_help (cmd tok : List Char) (rest : List (List Char))
    (o : ioOptionType) (out : List Char)
    (htok : tok = "-h".toList ∨ tok = "--help".toList) :
    processArgsLoop cmd (tok :: rest) o out = some ⟨2, o, out ++ showHelp cmd⟩ := by
  rcases htok with rfl | rfl <;> cases rest <;> simp [processArgsLoop, strcmpEq]

/-- A scan that returns 0 took its first token for a key or data flag, found a
value behind it, decoded the value and went on after the value. -/
theorem processArgsLoop_rc0_inv (cmd tok : List Char) (rest : List (List Char))
    (o : ioOptionType) (out : List Char) (r : ArgsResult)
    (h : processArgsLoop cmd (tok :: rest) o out = some r) (hr : r.rc = 0) :
    ∃ v rest1, rest = v :: rest1 ∧ notDash v = true ∧
      (((tok = "-k".toList ∨ tok = "--key".toList) ∧ v.length = 64 ∧
          (keyLoop v hmacKeyLen 0 o).1 = true ∧
          processArgsLoop cmd rest1 (keyLoop v hmacKeyLen 0 o).2 out = some r) ∨
       ((tok = "-d".toList ∨ tok = "--data".toList) ∧
          ∃ o1, dataLoop v (v.length / 2) 0 (allocData v o) = some (true, o1) ∧
            processArgsLoop cmd rest1 { o1 with hmacDataArg := true } out = some r)) := by
  have hl : ∀ v, (allocData v o).hmacDataLen = v.length / 2 := by
    intro v; unfold allocData; cases o.hmacData <;> rfl
  match rest, h with
  | [], h =>
    simp only [processArgsLoop] at h
    split_ifs at h <;> simp at h <;> (subst h; simp at hr)
  | v :: rest1, h =>
    simp only [processArgsLoop] at h
    split_ifs at h with h1 h2 h3 h4 h5 h6 h7
    all_goals first
      | (simp at h; subst h; simp at hr)
      | skip
    · -- key option
      rcases hk : keyLoop v hmacKeyLen 0 o with ⟨b, o1⟩
      rw [hk] at h
      cases b
      · simp at h; subst h; simp at hr
      · refine ⟨v, rest1, rfl, h4, Or.inl ⟨?_, ?_, by rw [hk], by rw [hk]; simpa using h⟩⟩
        · simpa [strcmpEq] using h3
        · simpa [hmacKeyLen] using h5
    · -- data option
      rw [hl] at h
      rcases hd : dataLoop v (v.length / 2) 0 (allocData v o) with _ | ⟨b, o1⟩
      · rw [hd] at h; simp at h
      · rw [hd] at h
        cases b
        · simp at h; subst h; simp at hr
        · refine ⟨v, rest1, rfl, h7, Or.inr ⟨?_, o1, hd, by simpa using h⟩⟩
          simpa [strcmpEq] using h6

/-! ## The data loop, inverted -/

/-- `allocData` always leaves a buffer behind, and sets the length. -/
theorem allocData_spec (v : List Char) (o : ioOptionType) :
    (allocData v o).hmacDataLen = v.length / 2 ∧
    (allocData v o).hmacKey = o.hmacKey ∧ (allocData v o).hmacKeyArg = o.hmacKeyArg ∧
    (allocData v o).hmacDataArg = o.hmacDataArg ∧
    ((o.hmacData = none ∧ (allocData v o).hmacData = some (List.replicate (v.length / 2) 0)) ∨
      ∃ buf, o.hmacData = some buf ∧ (allocData v o).hmacData = some buf) := by
  unfold allocData
  cases h : o.hmacData with
  | none => simp
  | some buf => simp

/-- A data loop that ran to its end found every pair accepted and every index
inside the allocation, and wrote the decoded bytes. -/
theorem dataLoop_true_inv (arg : List Char) :
    ∀ n (done todo : List Nat) (o o1 : ioOptionType), o.hmacData = some (done ++ todo) →
      dataLoop arg n done.length o = some (true, o1) →
      n ≤ todo.length ∧ pairsAccepted arg n done.length = true ∧
        o1 = { o with hmacData := some (done ++ pairBytes arg n done.length ++ todo.drop n) } := by
  intro n
  induction n with
  | zero =>
    intro done todo o o1 ho h
    simp only [dataLoop, Option.some.injEq, Prod.mk.injEq, true_and] at h
    subst h
    simp [pairsAccepted, pairBytes, ← ho]
  | succ n ih =>
    intro done todo o o1 ho h
    by_cases hp : parsePair arg done.length = ULONG_MAX
    · simp [dataLoop, hp] at h
    · cases todo with
      | nil => simp [dataLoop, hp, ho] at h
      | cons t todo =>
        simp [dataLoop, hp, ho] at h
        have := ih (done ++ [parsePair arg done.length % 256]) todo
          { o with hmacData := some ((done ++ [parsePair arg done.length % 256]) ++ todo) } o1 rfl
          (by simpa using h)
        simp only [List.length_append, List.length_singleton] at this
        obtain ⟨h1, h2, h3⟩ := this
        refine ⟨by simpa using h1, by simp [pairsAccepted, hp, h2], ?_⟩
        rw [h3]
        simp [pairBytes]

/-- With room for every index, the data loop ends with the flag that tells
whether every pair was accepted. -/
theorem dataLoop_flag (arg : List Char) :
    ∀ n (done todo : List Nat) (o : ioOptionType), o.hmacData = some (done ++ todo) →
      n ≤ todo.length →
      ∃ o1, dataLoop arg n done.length o = some (pairsAccepted arg n done.length, o1) := by
  intro n
  induction n with
  | zero => intro done todo o _ _; exact ⟨o, rfl⟩
  | succ n ih =>
    intro done todo o ho hn
    by_cases hp : parsePair arg done.length = ULONG_MAX
    · exact ⟨o, by simp [dataLoop, pairsAccepted, hp]⟩
    · cases todo with
      | nil => simp at hn
      | cons t todo =>
        obtain ⟨o1, h1⟩ := ih (done ++ [parsePair arg done.length % 256]) todo
          { o with hmacData := some ((done ++ [parsePair arg done.length % 256]) ++ todo) } rfl
          (by simpa using hn)
        simp only [List.length_append, List.length_singleton, List.append_assoc,
          List.singleton_append] at h1
        exact ⟨o1, by simp [dataLoop, pairsAccepted, hp, ho, h1]⟩

/-- A data loop asked for more bytes than the allocation holds, all of whose
pairs are accepted, writes outside the allocation. -/
theorem dataLoop_overflow (arg : List Char) :
    ∀ n (done todo : List Nat) (o : ioOptionType), o.hmacData = some (done ++ todo) →
      todo.length < n → pairsAccepted arg n done.length = true →
      dataLoop arg n done.length o = none := by
  intro n
  induction n with
  | zero => intro done todo o _ hn _; omega
  | succ n ih =>
    intro done todo o ho hn hacc
    simp only [pairsAccepted, Bool.and_eq_true, decide_eq_true_eq] at hacc
    cases todo with
    | nil => simp [dataLoop, hacc.1, ho]
    | cons t todo =>
      have := ih (done ++ [parsePair arg done.length % 256]) todo
        { o with hmacData := some ((done ++ [parsePair arg done.length % 256]) ++ todo) } rfl
        (by simpa using hn) (by simpa using hacc.2)
      simp only [List.length_append, List.length_singleton, List.append_assoc,
        List.singleton_append] at this
      simp [dataLoop, hacc.1, ho, this]

/-! ## Properties carried along a scan that returns 0 -/

/-- The key and data flags are different tokens. -/
theorem keyFlag_not_dataFlag {tok : List Char}
    (hk : tok = "-k".toList ∨ tok = "--key".toList) :
    ¬ (tok = "-d".toList ∨ tok = "--data".toList) := by
  rcases hk with rfl | rfl <;> decide

/-- A property kept by every accepted key option and every accepted data option
holds at the end of a scan that returns 0. -/
theorem processArgsLoop_rc0_induction (cmd : List Char) (Q : ioOptionType → Prop)
    (hkey : ∀ (v : List Char) (o : ioOptionType), notDash v = true → v.length = 64 →
      (keyLoop v hmacKeyLen 0 o).1 = true → Q o → Q (keyLoop v hmacKeyLen 0 o).2)
    (hdata : ∀ (v : List Char) (o o1 : ioOptionType), notDash v = true →
      dataLoop v (v.length / 2) 0 (allocData v o) = some (true, o1) → Q o →
      Q { o1 with hmacDataArg := true }) :
    ∀ (n : Nat) (args : List (List Char)) (o : ioOptionType) (out : List Char) (r : ArgsResult),
      args.length ≤ n → processArgsLoop cmd args o out = some r → r.rc = 0 → Q o →
      Q r.ioOpt := by
  intro n
  induction n with
  | zero =>
    intro args o out r hn h _ hq
    have : args = [] := List.length_eq_zero.mp (by omega)
    subst this
    simp [processArgsLoop] at h
    rw [← h]; exact hq
  | succ n ih =>
    intro args o out r hn h hr hq
    cases args with
    | nil =>
      simp [processArgsLoop] at h
      rw [← h]; exact hq
    | cons tok rest =>
      obtain ⟨v, rest1, rfl, hv, hstep⟩ := processArgsLoop_rc0_inv cmd tok rest o out r h hr
      have hlen : rest1.length ≤ n := by simp at hn; omega
      rcases hstep with ⟨_, hl, hk, hgo⟩ | ⟨_, o1, hd, hgo⟩
      · exact ih rest1 _ out r hlen hgo hr (hkey v o hv hl hk hq)
      · exact ih rest1 _ out r hlen hgo hr (hdata v o o1 hv hd hq)

/-- The key array keeps its 32 cells along a scan that returns 0. -/
theorem processArgsLoop_key_length_inv (cmd : List Char) (args : List (List Char))
    (o : ioOptionType) (out : List Char) (r : ArgsResult)
    (h : processArgsLoop cmd args o out = some r) (hr : r.rc = 0)
    (ho : o.hmacKey.length = 32) : r.ioOpt.hmacKey.length = 32 := by
  refine processArgsLoop_rc0_induction cmd (fun o => o.hmacKey.length = 32) ?_ ?_ args.length
    args o out r (le_refl _) h hr ho
  · intro v o _ _ _ hq
    rw [(keyLoop_fields v hmacKeyLen 0 o).2.2.2]; exact hq
  · intro v o o1 _ hd hq
    have := (dataLoop_fields v _ 0 _ o1 true hd).2.2.1
    simp only
    rw [this, (allocData_spec v o).2.1]; exact hq

/-- Once the data flag is set, the buffer exists and holds `hmacDataLen` bytes:
this holds at the end of every scan that returns 0. -/
theorem processArgsLoop_data_inv (cmd : List Char) (args : List (List Char))
    (o : ioOptionType) (out : List Char) (r : ArgsResult)
    (h : processArgsLoop cmd args o out = some r) (hr : r.rc = 0)
    (ho : o.hmacDataArg = true → ∃ buf, o.hmacData = some buf ∧ o.hmacDataLen ≤ buf.length) :
    r.ioOpt.hmacDataArg = true →
      ∃ buf, r.ioOpt.hmacData = some buf ∧ r.ioOpt.hmacDataLen ≤ buf.length := by
  refine processArgsLoop_rc0_induction cmd
    (fun o => o.hmacDataArg = true → ∃ buf, o.hmacData = some buf ∧ o.hmacDataLen ≤ buf.length)
    ?_ ?_ args.length args o out r (le_refl _) h hr ho
  · intro v o _ _ _ hq
    obtain ⟨h1, h2, h3, _⟩ := keyLoop_fields v hmacKeyLen 0 o
    rw [h1, h2, h3]; exact hq
  · intro v o o1 _ hd _ _
    obtain ⟨hl, _, _, _, hb⟩ := allocData_spec v o
    have hbuf : ∃ buf, (allocData v o).hmacData = some buf := by
      rcases hb with ⟨_, hb⟩ | ⟨buf, _, hb⟩
      · exact ⟨_, hb⟩
      · exact ⟨_, hb⟩
    obtain ⟨buf, hbuf⟩ := hbuf
    obtain ⟨hn, _, ho1⟩ := dataLoop_true_inv v (v.length / 2) [] buf (allocData v o) o1
      (by simpa using hbuf) hd
    subst ho1
    refine ⟨_, rfl, ?_⟩
    simp only [List.length_nil, List.nil_append, List.length_append, pairBytes_length,
      List.length_drop, hl]
    omega

/-- A scan that returns 0 on a list goes on, when more arguments follow the
list, from the state it reached. -/
theorem processArgsLoop_append (cmd : List Char) (suffix : List (List Char)) :
    ∀ (n : Nat) (pre : List (List Char)) (o o1 : ioOptionType) (out out1 : List Char),
      pre.length ≤ n → processArgsLoop cmd pre o out = some ⟨0, o1, out1⟩ →
      processArgsLoop cmd (pre ++ suffix) o out = processArgsLoop cmd suffix o1 out := by
  intro n
  induction n with
  | zero =>
    intro pre o o1 out out1 hn h
    have : pre = [] := List.length_eq_zero.mp (by omega)
    subst this
    simp [processArgsLoop] at h
    simp [h.1]
  | succ n ih =>
    intro pre o o1 out out1 hn h
    cases pre with
    | nil =>
      simp [processArgsLoop] at h
      simp [h.1]
    | cons tok rest =>
      obtain ⟨v, rest1, rfl, hv, hstep⟩ :=
        processArgsLoop_rc0_inv cmd tok rest o out ⟨0, o1, out1⟩ h rfl
      have hlen : rest1.length ≤ n := by simp at hn; omega
      rcases hstep with ⟨htok, hl, hk, hgo⟩ | ⟨htok, o2, hd, hgo⟩
      · simp only [List.cons_append]
        rw [processArgsLoop_key_step cmd tok v (rest1 ++ suffix) o out htok hv hl, hk]
        simp only [if_true]
        exact ih rest1 _ o1 out out1 hlen hgo
      · simp only [List.cons_append]
        rw [processArgsLoop_data_step cmd tok v (rest1 ++ suffix) o out htok hv, hd]
        simp only
        exact ih rest1 _ o1 out out1 hlen hgo

/-! ## The last value wins -/

/-- An accepted key option stores the 32 decoded bytes of its value. -/
theorem keyLoop_true_val (v : List Char) (o : ioOptionType) (ho : o.hmacKey.length = 32)
    (h : (keyLoop v hmacKeyLen 0 o).1 = true) :
    keyLoop v hmacKeyLen 0 o = (true, { o with hmacKey := pairBytes v 32 0, hmacKeyArg := true })
    := by
  have hacc : pairsAccepted v 32 0 = true := by
    rw [← keyLoop_flag v 32 0 o]; exact h
  have := keyLoop_accept v 32 [] o.hmacKey o rfl (by omega) hacc
  have hd : List.drop 32 o.hmacKey = [] := List.drop_of_length_le (by omega)
  simpa [hd, hmacKeyLen] using this

/-- An accepted data option leaves `hmacDataLen` at half the length of its
value and the decoded bytes in the first `hmacDataLen` cells of the buffer. -/
theorem dataLoop_true_val (v : List Char) (o o1 : ioOptionType)
    (h : dataLoop v (v.length / 2) 0 (allocData v o) = some (true, o1)) :
    o1.hmacDataLen = v.length / 2 ∧ o1.hmacKey = o.hmacKey ∧ o1.hmacKeyArg = o.hmacKeyArg ∧
      ∃ buf, o1.hmacData = some buf ∧ v.length / 2 ≤ buf.length ∧
        buf.take (v.length / 2) = pairBytes v (v.length / 2) 0 := by
  obtain ⟨hl, hk, hka, _, hb⟩ := allocData_spec v o
  have hbuf : ∃ buf, (allocData v o).hmacData = some buf := by
    rcases hb with ⟨_, hb⟩ | ⟨buf, _, hb⟩
    · exact ⟨_, hb⟩
    · exact ⟨_, hb⟩
  obtain ⟨buf, hbuf⟩ := hbuf
  obtain ⟨hn, _, ho1⟩ := dataLoop_true_inv v (v.length / 2) [] buf (allocData v o) o1
    (by simpa using hbuf) h
  subst ho1
  refine ⟨hl, hk, hka, _, rfl, ?_, ?_⟩
  · simp only [List.length_nil, List.nil_append, List.length_append, pairBytes_length,
      List.length_drop]
    omega
  · simp only [List.length_nil, List.nil_append]
    rw [List.take_append_of_le_length (by rw [pairBytes_length]),
      List.take_of_length_le (by rw [pairBytes_length])]

/-- Along a scan that returns 0 the data fields are those the last data option
left; without a data option they are untouched. -/
theorem processArgsLoop_last_data (cmd : List Char) :
    ∀ (n : Nat) (args : List (List Char)) (o : ioOptionType) (out : List Char) (r : ArgsResult),
      args.length ≤ n → processArgsLoop cmd args o out = some r → r.rc = 0 →
      match lastValue isDataFlag args with
      | some v => r.ioOpt.hmacDataArg = true ∧ r.ioOpt.hmacDataLen = v.length / 2 ∧
          ∃ buf, r.ioOpt.hmacData = some buf ∧ v.length / 2 ≤ buf.length ∧
            buf.take (v.length / 2) = pairBytes v (v.length / 2) 0
      | none => r.ioOpt.hmacDataArg = o.hmacDataArg ∧ r.ioOpt.hmacDataLen = o.hmacDataLen ∧
          r.ioOpt.hmacData = o.hmacData := by
  intro n
  induction n with
  | zero =>
    intro args o out r hn h _
    have : args = [] := List.length_eq_zero.mp (by omega)
    subst this
    simp [processArgsLoop] at h
    simp [lastValue, ← h]
  | succ n ih =>
    intro args o out r hn h hr
    cases args with
    | nil =>
      simp [processArgsLoop] at h
      simp [lastValue, ← h]
    | cons tok rest =>
      obtain ⟨v, rest1, rfl, hv, hstep⟩ := processArgsLoop_rc0_inv cmd tok rest o out r h hr
      have hlen : rest1.length ≤ n := by simp at hn; omega
      rcases hstep with ⟨htok, hl, hk, hgo⟩ | ⟨htok, o1, hd, hgo⟩
      · have hrec := ih rest1 _ out r hlen hgo hr
        have hnd : isDataFlag tok = false := by
          simp only [isDataFlag, decide_eq_false_iff_not]
          exact keyFlag_not_dataFlag htok
        obtain ⟨h1, h2, h3, _⟩ := keyLoop_fields v hmacKeyLen 0 o
        simp only [lastValue]
        cases hlast : lastValue isDataFlag rest1 with
        | some w => rw [hlast] at hrec; simpa using hrec
        | none =>
          rw [hlast] at hrec
          simp only [hnd, Bool.false_eq_true, if_false]
          rw [← h1, ← h2, ← h3]; exact hrec
      · have hrec := ih rest1 _ out r hlen hgo hr
        have hdf : isDataFlag tok = true := by
          simp only [isDataFlag, decide_eq_true_eq]; exact htok
        obtain ⟨e1, _, _, buf, e2, e3, e4⟩ := dataLoop_true_val v o o1 hd
        simp only [lastValue]
        cases hlast : lastValue isDataFlag rest1 with
        | some w => rw [hlast] at hrec; simpa using hrec
        | none =>
          rw [hlast] at hrec
          simp only [hdf, if_true]
          obtain ⟨r1, r2, r3⟩ := hrec
          simp only at r1 r2 r3
          exact ⟨r1, by rw [r2, e1], buf, by rw [r3, e2], e3, e4⟩

/-- Along a scan that returns 0 the key is the decoding of the last key value;
without a key option the key fields are untouched. -/
theorem processArgsLoop_last_key (cmd : List Char) :
    ∀ (n : Nat) (args : List (List Char)) (o : ioOptionType) (out : List Char) (r : ArgsResult),
      args.length ≤ n → processArgsLoop cmd args o out = some r → r.rc = 0 →
      o.hmacKey.length = 32 →
      match lastValue isKeyFlag args with
      | some k => r.ioOpt.hmacKeyArg = true ∧ r.ioOpt.hmacKey = pairBytes k 32 0
      | none => r.ioOpt.hmacKeyArg = o.hmacKeyArg ∧ r.ioOpt.hmacKey = o.hmacKey := by
  intro n
  induction n with
  | zero =>
    intro args o out r hn h _ _
    have : args = [] := List.length_eq_zero.mp (by omega)
    subst this
    simp [processArgsLoop] at h
    simp [lastValue, ← h]
  | succ n ih =>
    intro args o out r hn h hr ho
    cases args with
    | nil =>
      simp [processArgsLoop] at h
      simp [lastValue, ← h]
    | cons tok rest =>
      obtain ⟨v, rest1, rfl, hv, hstep⟩ := processArgsLoop_rc0_inv cmd tok rest o out r h hr
      have hlen : rest1.length ≤ n := by simp at hn; omega
      rcases hstep with ⟨htok, hl, hk, hgo⟩ | ⟨htok, o1, hd, hgo⟩
      · have hval := keyLoop_true_val v o ho hk
        rw [hval] at hgo
        have hrec := ih rest1 _ out r hlen hgo hr (by simp [pairBytes_length])
        have hkf : isKeyFlag tok = true := by
          simp only [isKeyFlag, decide_eq_true_eq]; exact htok
        simp only [lastValue]
        cases hlast : lastValue isKeyFlag rest1 with
        | some w => rw [hlast] at hrec; simpa using hrec
        | none =>
          rw [hlast] at hrec
          simpa [hkf] using hrec
      · obtain ⟨_, e2, e3, _⟩ := dataLoop_true_val v o o1 hd
        have hrec := ih rest1 _ out r hlen hgo hr (by simp only; rw [e2]; exact ho)
        have hnk : isKeyFlag tok = false := by
          simp only [isKeyFlag, decide_eq_false_iff_not]
          intro hk
          exact keyFlag_not_dataFlag hk htok
        simp only [lastValue]
        cases hlast : lastValue isKeyFlag rest1 with
        | some w => rw [hlast] at hrec; simpa using hrec
        | none =>
          rw [hlast] at hrec
          simp only [hnk, Bool.false_eq_true, if_false]
          simp only at hrec
          rw [← e2, ← e3]; exact hrec

/-! ## The three outcomes of a scan -/

/-- What a scan can leave behind: 0 with nothing printed, 1 with one
diagnostic printed, or 2 with the help block or the version line printed. -/
theorem processArgsLoop_outcome (cmd : List Char) :
    ∀ (n : Nat) (args : List (List Char)) (o : ioOptionType) (out : List Char) (r : ArgsResult),
      args.length ≤ n → processArgsLoop cmd args o out = some r →
      (r.rc = 0 ∧ r.out = out) ∨
      (r.rc = 1 ∧ ∃ msg, r.out = out ++ msg ∧
        (msg ∈ argDiagnostics ∨ ∃ tok ∈ args, msg = unknownOption tok)) ∨
      (r.rc = 2 ∧
        (r.out = out ++ showHelp cmd ∨ r.out = out ++ "  VER: version=1.0\n".toList)) := by
  intro n
  induction n with
  | zero =>
    intro args o out r hn h
    have : args = [] := List.length_eq_zero.mp (by omega)
    subst this
    simp [processArgsLoop] at h
    simp [← h]
  | succ n ih =>
    intro args o out r hn h
    match args, hn, h with
    | [], _, h =>
      simp [processArgsLoop] at h
      simp [← h]
    | [tok], _, h =>
      simp only [processArgsLoop] at h
      split_ifs at h <;> simp at h <;> subst h <;>
        simp [argDiagnostics, unknownOption]
    | tok :: v :: rest, hn, h =>
      simp only [processArgsLoop] at h
      split_ifs at h
      all_goals first
        | (simp at h; subst h; simp [argDiagnostics, unknownOption])
        | (split at h
           · rcases ih rest _ out r (by simp at hn; omega) h with h0 | ⟨h1, msg, hm, hmsg⟩ | h2
             · exact Or.inl h0
             · refine Or.inr (Or.inl ⟨h1, msg, hm, ?_⟩)
               rcases hmsg with hmsg | ⟨t, ht, hmsg⟩
               · exact Or.inl hmsg
               · exact Or.inr ⟨t, by simp [ht], hmsg⟩
             · exact Or.inr (Or.inr h2)
           · simp at h; subst h; simp [argDiagnostics, unknownOption]
           all_goals (try simp at h))

/-! ## How `main` ends -/

/-- `main` after a scan that returned 1. -/
theorem main_rc1 {Ctx : Type} (P : HmacProvider Ctx) (u : Uninit) (argv : List (List Char))
    (o : ioOptionType) (out : List Char)
    (h : processArgs argv (initOpt u) = some ⟨1, o, out⟩) :
    main P u argv = some ⟨EXIT_FAILURE, out⟩ := by
  simp [main, h]

/-- `main` after a scan that returned 2. -/
theorem main_rc2 {Ctx : Type} (P : HmacProvider Ctx) (u : Uninit) (argv : List (List Char))
    (o : ioOptionType) (out : List Char)
    (h : processArgs argv (initOpt u) = some ⟨2, o, out⟩) :
    main P u argv = some ⟨EXIT_SUCCESS, out⟩ := by
  simp [main, h]

/-- `main` after a scan that returned 0 without a data option. -/
theorem main_no_data {Ctx : Type} (P : HmacProvider Ctx) (u : Uninit) (argv : List (List Char))
    (o : ioOptionType) (out : List Char)
    (h : processArgs argv (initOpt u) = some ⟨0, o, out⟩) (hd : o.hmacDataArg = false) :
    main P u argv =
      some ⟨EXIT_FAILURE, out ++ "Error HMAC Data Option Not Supplied\n".toList⟩ := by
  simp [main, h, hd]

/-- `main` after a scan that returned 0 with a data option and without a key
option. -/
theorem main_no_key {Ctx : Type} (P : HmacProvider Ctx) (u : Uninit) (argv : List (List Char))
    (o : ioOptionType) (out : List Char)
    (h : processArgs argv (initOpt u) = some ⟨0, o, out⟩) (hd : o.hmacDataArg = true)
    (hk : o.hmacKeyArg = false) :
    main P u argv =
      some ⟨EXIT_FAILURE, out ++ "Error HMAC Key Option Not Supplied\n".toList⟩ := by
  simp [main, h, hd, hk]

/-- A key option whose value fails a test returns 1 after one diagnostic. -/
theorem processArgsLoop_key_bad (cmd tok v : List Char) (rest : List (List Char))
    (o : ioOptionType) (out : List Char)
    (htok : tok = "-k".toList ∨ tok = "--key".toList) (hbad : keyOk v = false) :
    ∃ o1 msg, processArgsLoop cmd (tok :: v :: rest) o out = some ⟨1, o1, out ++ msg⟩ := by
  by_cases hd : notDash v = true
  · by_cases hl : v.length = 64
    · have hacc : pairsAccepted v 32 0 = false := by
        simpa [keyOk, hd, hl] using hbad
      have hf : (keyLoop v hmacKeyLen 0 o).1 = false := by
        rw [keyLoop_flag]; exact hacc
      rw [processArgsLoop_key_step cmd tok v rest o out htok hd hl, hf]
      exact ⟨_, _, rfl⟩
    · exact ⟨_, _, processArgsLoop_key_length cmd tok v rest o out htok hd hl⟩
  · exact ⟨_, _, (processArgsLoop_missing cmd tok (v :: rest) o out
      (Or.inr ⟨v, rest, rfl, by simpa using hd⟩)).1 htok⟩

/-- A first data option whose value fails a test returns 1 after one
diagnostic. -/
theorem processArgsLoop_data_bad (cmd tok v : List Char) (rest : List (List Char))
    (o : ioOptionType) (out : List Char)
    (htok : tok = "-d".toList ∨ tok = "--data".toList) (hbad : dataOk v = false)
    (ho : o.hmacData = none) :
    ∃ o1 msg, processArgsLoop cmd (tok :: v :: rest) o out = some ⟨1, o1, out ++ msg⟩ := by
  by_cases hd : notDash v = true
  · have hacc : pairsAccepted v (v.length / 2) 0 = false := by
      simpa [dataOk, hd] using hbad
    obtain ⟨_, _, _, _, hb⟩ := allocData_spec v o
    have hbuf : (allocData v o).hmacData = some ([] ++ List.replicate (v.length / 2) 0) := by
      rcases hb with ⟨_, hb⟩ | ⟨buf, hb, _⟩
      · simpa using hb
      · rw [ho] at hb; simp at hb
    obtain ⟨o1, h1⟩ := dataLoop_flag v (v.length / 2) [] _ (allocData v o) hbuf (by simp)
    simp only [List.length_nil, hacc] at h1
    rw [processArgsLoop_data_step cmd tok v rest o out htok hd, h1]
    exact ⟨_, _, rfl⟩
  · exact ⟨_, _, (processArgsLoop_missing cmd tok (v :: rest) o out
      (Or.inr ⟨v, rest, rfl, by simpa using hd⟩)).2 htok⟩

/-- The bytes the decoding loop stores, by index. -/
theorem pairBytes_getD (arg : List Char) :
    ∀ n idx j, j < n → (pairBytes arg n idx).getD j 0 = parsePair arg (idx + j) % 256 := by
  intro n
  induction n with
  | zero => intro idx j h; omega
  | succ n ih =>
    intro idx j h
    cases j with
    | zero => simp [pairBytes]
    | succ j =>
      have := ih (idx + 1) j (by omega)
      simp only [pairBytes, List.getD_cons_succ, this]
      congr 2
      omega

/-! ## The diagnostics as lines -/

/-- A text that ends in its only newline and does not start like a line of the
report is one diagnostic line. -/
theorem oneDiagnosticLine_of_dropLast (text : List Char)
    (h0 : text = text.dropLast ++ "\n".toList) (h1 : '\n' ∉ text.dropLast)
    (h2 : text.dropLast.take 8 ≠ "HMACKEY=".toList)
    (h3 : text.dropLast.take 9 ≠ "HMACDATA=".toList)
    (h4 : text.dropLast.take 11 ≠ "HMACSHA384=".toList) : oneDiagnosticLine text :=
  ⟨text.dropLast, h0, h1, h2, h3, h4⟩

/-- Each of the seven fixed diagnostics is one line, and not a line of the
report. -/
theorem fixedDiagnostics_oneLine :
    ∀ msg ∈ fixedDiagnostics, oneDiagnosticLine msg := by
  intro msg h
  simp only [fixedDiagnostics, argDiagnostics, List.cons_append, List.nil_append,
    List.mem_cons, List.mem_singleton, List.not_mem_nil, or_false] at h
  rcases h with rfl | rfl | rfl | rfl | rfl | rfl | rfl <;>
    exact oneDiagnosticLine_of_dropLast _ (by decide!) (by decide!) (by decide!) (by decide!)
      (by decide!)

/-- The diagnostic for an unknown token is one line, and not a line of the
report, when the token holds no newline. -/
theorem unknownOption_oneLine (tok : List Char) (h : '\n' ∉ tok) :
    oneDiagnosticLine (unknownOption tok) := by
  refine ⟨"Unknown option: \x27".toList ++ tok ++ "\x27".toList, ?_, ?_, ?_, ?_, ?_⟩
  · simp [unknownOption]
  · intro hm
    simp only [List.mem_append] at hm
    rcases hm with (hm | hm) | hm
    · revert hm; decide
    · exact h hm
    · revert hm; decide
  · rw [List.append_assoc, List.take_append_of_le_length (by decide)]; decide
  · rw [List.append_assoc, List.take_append_of_le_length (by decide)]; decide
  · rw [List.append_assoc, List.take_append_of_le_length (by decide)]; decide

/-! ## The claims -/

/-- C1 (evaluation at the failing input): a 64-character key value that holds
the letter `g` and a data value `zz` are both accepted.  `processArgs` returns
0 with the key and the data byte decoded as zeros, and `main` exits with
`EXIT_SUCCESS` after printing all three lines, the `HMACSHA384=` line
included; no "not Hex Value" diagnostic is printed. -/
theorem C1_nonhex_values_accepted {Ctx : Type} (P : HmacProvider Ctx) (u : Uninit) :
    processArgs ["hmacsha384".toList, "-k".toList,
        "g000000000000000000000000000000000000000000000000000000000000000".toList,
        "-d".toList, "zz".toList] (initOpt u) =
      some ⟨0, ⟨true, true, List.replicate 32 0, some [0], 1⟩, []⟩ ∧
    main P u ["hmacsha384".toList, "-k".toList,
        "g000000000000000000000000000000000000000000000000000000000000000".toList,
        "-d".toList, "zz".toList] =
      some ⟨EXIT_SUCCESS,
        "HMACKEY=0000000000000000000000000000000000000000000000000000000000000000\n".toList
        ++ "HMACDATA=00\n".toList
        ++ "HMACSHA384=".toList
        ++ printHexLoop (computeTag P u ⟨true, true, List.replicate 32 0, some [0], 1⟩ [0])
            hmacResultLen 0
        ++ "\n".toList⟩ := by
  have hargs : processArgs ["hmacsha384".toList, "-k".toList,
        "g000000000000000000000000000000000000000000000000000000000000000".toList,
        "-d".toList, "zz".toList] (initOpt u) =
      some ⟨0, ⟨true, true, List.replicate 32 0, some [0], 1⟩, []⟩ := by
    unfold processArgs
    simp only [List.headD_cons, List.tail_cons]
    rw [processArgsLoop_key_decoded _ _ _ _ _ _ (Or.inl rfl) (by decide!) (by decide!)
        (by decide!) (initOpt_hmacKey_length u),
      processArgsLoop_data_decoded _ _ _ _ _ _ (Or.inl rfl) (by decide!) (by decide!) rfl,
      processArgsLoop_nil]
    have h1 : pairBytes
        "g000000000000000000000000000000000000000000000000000000000000000".toList 32 0
        = List.replicate 32 0 := by decide!
    have h2 : pairBytes "zz".toList ("zz".toList.length / 2) 0 = [0] := by decide!
    have h3 : "zz".toList.length / 2 = 1 := by decide!
    rw [h1, h2, h3]
  refine ⟨hargs, ?_⟩
  rw [main_report P u _ _ _ [0] hargs rfl rfl rfl (by decide)]
  have hk : printHexLoop (List.replicate 32 0) hmacKeyLen 0
      = "0000000000000000000000000000000000000000000000000000000000000000".toList := by decide!
  have hd : printHexLoop [0] 1 0 = "00".toList := by decide!
  simp only [report, hk, hd]
  simp

/-- C2 (counterexample): with a valid key, the odd-length data value `abc` is
accepted.  `processArgs` returns 0, not 1, with `hmacDataLen = 1` and the
single data byte `0xab`; with OpenSSL working the run exits with
`EXIT_SUCCESS` and prints the `HMACDATA=` and `HMACSHA384=` lines. -/
theorem C2_counterexample :
    processArgs ["hmacsha384".toList, "-k".toList,
        "0b0b0b0b0b0b0b0b0b0b0b0b0b0b0b0b0b0b0b0b0b0b0b0b0b0b0b0b0b0b0b0b".toList,
        "-d".toList, "abc".toList] (initOpt ⟨[], 0, []⟩) =
      some ⟨0, ⟨true, true, List.replicate 32 11, some [171], 1⟩, []⟩ ∧
    main openssl ⟨[], 0, []⟩ ["hmacsha384".toList, "-k".toList,
        "0b0b0b0b0b0b0b0b0b0b0b0b0b0b0b0b0b0b0b0b0b0b0b0b0b0b0b0b0b0b0b0b".toList,
        "-d".toList, "abc".toList] =
      some ⟨EXIT_SUCCESS,
        ("HMACKEY=0b0b0b0b0b0b0b0b0b0b0b0b0b0b0b0b0b0b0b0b0b0b0b0b0b0b0b0b0b0b0b0b\n"
          ++ "HMACDATA=ab\n"
          ++ "HMACSHA384=6caa3697f5a1d94ec977e1de318608e657f1465610a2c7e99382c46b7dd4311c"
          ++ "ca9134e12c1170993c6dea4f2ddd2b89\n").toList⟩ := by
  decide!

/-- C2 (amended): an odd-length data value is not refused for its length.  Its
last character is ignored: from any state of the scan, the data option with a
value `v` of odd length that does not begin with `-` behaves exactly as the
data option with `v` without its last character. -/
theorem C2_odd_length_data_truncated (cmd tok v : List Char) (rest : List (List Char))
    (o : ioOptionType) (out : List Char)
    (htok : tok = "-d".toList ∨ tok = "--data".toList)
    (hodd : v.length % 2 = 1) (hdash : v.head? ≠ some '-') :
    processArgsLoop cmd (tok :: v :: rest) o out =
      processArgsLoop cmd (tok :: v.dropLast :: rest) o out := by
  have hnd : notDash v = true := (notDash_iff v).mpr hdash
  have hnd2 : notDash v.dropLast = true := by
    match v, hnd with
    | [], _ => rfl
    | [_], _ => rfl
    | c :: d :: s, h => simpa [List.dropLast, notDash] using h
  have hlen : v.dropLast.length / 2 = v.length / 2 := by
    rw [List.length_dropLast]; omega
  have hal : allocData v.dropLast o = allocData v o := by
    unfold allocData
    simp only [hlen]
  rw [processArgsLoop_data_step cmd tok v rest o out htok hnd,
    processArgsLoop_data_step cmd tok v.dropLast rest o out htok hnd2, hlen, hal,
    dataLoop_congr v.dropLast v (v.length / 2) 0 (allocData v o)
      (fun i _ hi => parsePair_dropLast v i (by omega))]

/-- Witness of C2 (amended): `-d abc` behaves as `-d ab`. -/
theorem C2_odd_length_data_truncated_witness :
    ("abc".toList.length % 2 = 1 ∧ "abc".toList.head? ≠ some '-') ∧
    processArgsLoop "hmacsha384".toList ["-d".toList, "abc".toList] (initOpt ⟨[], 0, []⟩) [] =
      processArgsLoop "hmacsha384".toList ["-d".toList, "abc".toList.dropLast]
        (initOpt ⟨[], 0, []⟩) [] :=
  ⟨⟨by decide, by decide⟩,
    C2_odd_length_data_truncated "hmacsha384".toList "-d".toList "abc".toList []
      (initOpt ⟨[], 0, []⟩) [] (Or.inl rfl) (by decide) (by decide)⟩

/-- C3: from any state of the scan, a key option whose value does not begin
with `-` and whose length is not 64 makes `processArgs` return 1 with the
diagnostic `Error: Invalid HMAC Key parameter length`; the option record is
returned as it was (no byte of `hmacKey` written, `hmacKeyArg` unchanged). -/
theorem C3_key_length_rejected (cmd tok v : List Char) (rest : List (List Char))
    (o : ioOptionType) (out : List Char)
    (htok : tok = "-k".toList ∨ tok = "--key".toList)
    (hdash : v.head? ≠ some '-') (hlen : v.length ≠ 64) :
    processArgsLoop cmd (tok :: v :: rest) o out =
        some ⟨1, o, out ++ "Error: Invalid HMAC Key parameter length\n".toList⟩ ∧
      processArgs (cmd :: tok :: v :: rest) o =
        some ⟨1, o, "Error: Invalid HMAC Key parameter length\n".toList⟩ := by
  have h := fun out => processArgsLoop_key_length cmd tok v rest o out htok
    ((notDash_iff v).mpr hdash) hlen
  refine ⟨h out, ?_⟩
  simpa [processArgs] using h []

/-- Witness of C3: the key value `0b0b` has length 4. -/
theorem C3_key_length_rejected_witness :
    ("0b0b".toList.head? ≠ some '-' ∧ "0b0b".toList.length ≠ 64) ∧
    processArgsLoop "hmacsha384".toList ["-k".toList, "0b0b".toList, "-d".toList, "00".toList]
        (initOpt ⟨[], 0, []⟩) [] =
        some ⟨1, initOpt ⟨[], 0, []⟩, [] ++ "Error: Invalid HMAC Key parameter length\n".toList⟩ ∧
      processArgs ["hmacsha384".toList, "-k".toList, "0b0b".toList, "-d".toList, "00".toList]
        (initOpt ⟨[], 0, []⟩) =
        some ⟨1, initOpt ⟨[], 0, []⟩, "Error: Invalid HMAC Key parameter length\n".toList⟩ :=
  ⟨⟨by decide, by decide⟩,
    C3_key_length_rejected "hmacsha384".toList "-k".toList "0b0b".toList
      ["-d".toList, "00".toList] (initOpt ⟨[], 0, []⟩) [] (Or.inl rfl) (by decide) (by decide)⟩

/-- C4: for a well-formed 64-character hex key `k` and a well-formed
even-length hex data value `d`, given in either order, the run succeeds,
printing the decoded key with the `%02hhx` loop gives `lowercase k`, printing
the decoded data gives `lowercase d`, and standard output is `HMACKEY=` +
`lowercase k`, `HMACDATA=` + `lowercase d` and the tag line. -/
theorem C4_echo_fidelity {Ctx : Type} (P : HmacProvider Ctx) (u : Uninit)
    (cmd tk k td d : List Char)
    (htk : tk = "-k".toList ∨ tk = "--key".toList)
    (htd : td = "-d".toList ∨ td = "--data".toList)
    (hk : wellFormedHex k) (hklen : k.length = 64)
    (hd : wellFormedHex d) (hdlen : d.length % 2 = 0) :
    ∃ (o : ioOptionType) (buf : List Nat),
      processArgs [cmd, tk, k, td, d] (initOpt u) = some ⟨0, o, []⟩ ∧
      processArgs [cmd, td, d, tk, k] (initOpt u) = some ⟨0, o, []⟩ ∧
      o.hmacData = some buf ∧
      printHexLoop o.hmacKey hmacKeyLen 0 = lowercase k ∧
      printHexLoop buf o.hmacDataLen 0 = lowercase d ∧
      main P u [cmd, tk, k, td, d] =
        some ⟨EXIT_SUCCESS,
          "HMACKEY=".toList ++ lowercase k ++ "\n".toList
          ++ "HMACDATA=".toList ++ lowercase d ++ "\n".toList
          ++ "HMACSHA384=".toList ++ printHexLoop (computeTag P u o buf) hmacResultLen 0
          ++ "\n".toList⟩ ∧
      main P u [cmd, td, d, tk, k] = main P u [cmd, tk, k, td, d] := by
  obtain ⟨hka, hkb, hkp, hkl⟩ := decode_wellFormed 32 k (by omega) hk
  obtain ⟨hda, hdb, hdp, hdl⟩ := decode_wellFormed (d.length / 2) d (by omega) hd
  have hargs : processArgs [cmd, tk, k, td, d] (initOpt u) =
      some ⟨0, ⟨true, true, decodeRef k, some (decodeRef d), d.length / 2⟩, []⟩ := by
    unfold processArgs
    simp only [List.headD_cons, List.tail_cons]
    rw [processArgsLoop_key_decoded _ _ _ _ _ _ htk (wellFormedHex_notDash hk) hklen hka
        (initOpt_hmacKey_length u),
      processArgsLoop_data_decoded _ _ _ _ _ _ htd (wellFormedHex_notDash hd) hda rfl,
      processArgsLoop_nil, hkb, hdb]
  have hargs2 : processArgs [cmd, td, d, tk, k] (initOpt u) =
      some ⟨0, ⟨true, true, decodeRef k, some (decodeRef d), d.length / 2⟩, []⟩ := by
    unfold processArgs
    simp only [List.headD_cons, List.tail_cons]
    rw [processArgsLoop_data_decoded _ _ _ _ _ _ htd (wellFormedHex_notDash hd) hda rfl,
      processArgsLoop_key_decoded _ _ _ _ _ _ htk (wellFormedHex_notDash hk) hklen hka
        (by exact initOpt_hmacKey_length u),
      processArgsLoop_nil, hkb, hdb]
  have hpk : printHexLoop (decodeRef k) hmacKeyLen 0 = lowercase k := by
    have : hmacKeyLen = (decodeRef k).length := by rw [hkl]; rfl
    rw [this, printHexLoop_all, hkp]
  have hpd : printHexLoop (decodeRef d) (d.length / 2) 0 = lowercase d := by
    have : d.length / 2 = (decodeRef d).length := by rw [hdl]
    rw [this, printHexLoop_all, hdp]
  refine ⟨_, _, hargs, hargs2, rfl, hpk, hpd, ?_, ?_⟩
  · rw [main_report P u _ _ _ (decodeRef d) hargs rfl rfl rfl (by simp [hdl])]
    simp only [report, hpk, hpd, List.nil_append]
  · rw [main_report P u _ _ _ (decodeRef d) hargs rfl rfl rfl (by simp [hdl]),
      main_report P u _ _ _ (decodeRef d) hargs2 rfl rfl rfl (by simp [hdl])]

/-- Witness of C4: key `0B` thirty-two times, data `4869205468657265`. -/
theorem C4_echo_fidelity_witness :
    (wellFormedHex "0B0B0B0B0B0B0B0B0B0B0B0B0B0B0B0B0B0B0B0B0B0B0B0B0B0B0B0B0B0B0B0B".toList ∧
      "0B0B0B0B0B0B0B0B0B0B0B0B0B0B0B0B0B0B0B0B0B0B0B0B0B0B0B0B0B0B0B0B".toList.length = 64 ∧
      wellFormedHex "4869205468657265".toList ∧ "4869205468657265".toList.length % 2 = 0) ∧
    ∃ (o : ioOptionType) (buf : List Nat),
      processArgs ["hmacsha384".toList, "-k".toList,
        "0B0B0B0B0B0B0B0B0B0B0B0B0B0B0B0B0B0B0B0B0B0B0B0B0B0B0B0B0B0B0B0B".toList, "-d".toList,
        "4869205468657265".toList] (initOpt ⟨[], 0, []⟩) = some ⟨0, o, []⟩ ∧
      processArgs ["hmacsha384".toList, "-d".toList, "4869205468657265".toList, "-k".toList,
        "0B0B0B0B0B0B0B0B0B0B0B0B0B0B0B0B0B0B0B0B0B0B0B0B0B0B0B0B0B0B0B0B".toList]
        (initOpt ⟨[], 0, []⟩) = some ⟨0, o, []⟩ ∧
      o.hmacData = some buf ∧
      printHexLoop o.hmacKey hmacKeyLen 0 =
        lowercase "0B0B0B0B0B0B0B0B0B0B0B0B0B0B0B0B0B0B0B0B0B0B0B0B0B0B0B0B0B0B0B0B".toList ∧
      printHexLoop buf o.hmacDataLen 0 = lowercase "4869205468657265".toList ∧
      main openssl ⟨[], 0, []⟩
        ["hmacsha384".toList, "-k".toList,
        "0B0B0B0B0B0B0B0B0B0B0B0B0B0B0B0B0B0B0B0B0B0B0B0B0B0B0B0B0B0B0B0B".toList, "-d".toList,
        "4869205468657265".toList] =
        some ⟨EXIT_SUCCESS,
          "HMACKEY=".toList
          ++ lowercase "0B0B0B0B0B0B0B0B0B0B0B0B0B0B0B0B0B0B0B0B0B0B0B0B0B0B0B0B0B0B0B0B".toList
          ++ "\n".toList
          ++ "HMACDATA=".toList ++ lowercase "4869205468657265".toList ++ "\n".toList
          ++ "HMACSHA384=".toList
          ++ printHexLoop (computeTag openssl ⟨[], 0, []⟩ o buf) hmacResultLen 0
          ++ "\n".toList⟩ ∧
      main openssl ⟨[], 0, []⟩
        ["hmacsha384".toList, "-d".toList, "4869205468657265".toList, "-k".toList,
        "0B0B0B0B0B0B0B0B0B0B0B0B0B0B0B0B0B0B0B0B0B0B0B0B0B0B0B0B0B0B0B0B".toList] =
      main openssl ⟨[], 0, []⟩
        ["hmacsha384".toList, "-k".toList,
        "0B0B0B0B0B0B0B0B0B0B0B0B0B0B0B0B0B0B0B0B0B0B0B0B0B0B0B0B0B0B0B0B".toList, "-d".toList,
        "4869205468657265".toList] :=
  ⟨⟨by decide!, by decide!, by decide!, by decide!⟩,
    C4_echo_fidelity _ _ _ _ _ _ _ (Or.inl rfl) (Or.inl rfl) (by decide!) (by decide!)
      (by decide!) (by decide!)⟩

/-- C5: decoding what the reporter's loop prints gives the bytes back.  For
every byte sequence `b`, the data option applied to the printed text of `b`
(the pointer still `NULL`) stores exactly `b` with `hmacDataLen = |b|`, and for
`|b| = 32` the key option applied to the printed text stores exactly `b` in
`hmacKey`. -/
theorem C5_decode_encode (cmd td tk : List Char) (b : List Nat) (o : ioOptionType)
    (htd : td = "-d".toList ∨ td = "--data".toList)
    (htk : tk = "-k".toList ∨ tk = "--key".toList)
    (hb : ∀ x ∈ b, x < 256) :
    (o.hmacData = none →
      processArgs [cmd, td, printHexLoop b b.length 0] o =
        some ⟨0, { o with hmacData := some b, hmacDataLen := b.length, hmacDataArg := true },
          []⟩) ∧
    (b.length = hmacKeyLen → o.hmacKey.length = hmacKeyLen →
      processArgs [cmd, tk, printHexLoop b hmacKeyLen 0] o =
        some ⟨0, { o with hmacKey := b, hmacKeyArg := true }, []⟩) := by
  obtain ⟨hacc, hbytes⟩ := decode_hexOfBytes b hb
  have hlen : (hexOfBytes b).length / 2 = b.length := by
    rw [hexOfBytes_length]; omega
  constructor
  · intro ho
    unfold processArgs
    simp only [List.headD_cons, List.tail_cons, printHexLoop_all]
    rw [processArgsLoop_data_decoded _ _ _ _ _ _ htd (hexOfBytes_notDash b)
      (by rw [hlen]; exact hacc) ho, processArgsLoop_nil, hlen, hbytes]
  · intro hbl ho
    have h32 : b.length = 32 := hbl
    unfold processArgs
    simp only [List.headD_cons, List.tail_cons]
    rw [← hbl, printHexLoop_all]
    rw [processArgsLoop_key_decoded _ _ _ _ _ _ htk (hexOfBytes_notDash b)
      (by rw [hexOfBytes_length]; omega) (by rw [← h32]; exact hacc) (by rw [ho]; rfl),
      processArgsLoop_nil, ← h32, hbytes]

/-- Witness of C5: the 32 bytes `0, 8, 16, …, 248`, as data and as key. -/
theorem C5_decode_encode_witness :
    (∀ x ∈ (List.range 32).map (· * 8), x < 256) ∧
    processArgs ["hmacsha384".toList, "-d".toList,
        printHexLoop ((List.range 32).map (· * 8)) ((List.range 32).map (· * 8)).length 0]
        (initOpt ⟨[], 0, []⟩) =
      some ⟨0, { initOpt ⟨[], 0, []⟩ with
        hmacData := some ((List.range 32).map (· * 8)),
        hmacDataLen := ((List.range 32).map (· * 8)).length, hmacDataArg := true }, []⟩ ∧
    processArgs ["hmacsha384".toList, "--key".toList,
        printHexLoop ((List.range 32).map (· * 8)) hmacKeyLen 0] (initOpt ⟨[], 0, []⟩) =
      some ⟨0, { initOpt ⟨[], 0, []⟩ with
        hmacKey := (List.range 32).map (· * 8), hmacKeyArg := true }, []⟩ :=
  ⟨by decide,
    (C5_decode_encode "hmacsha384".toList "-d".toList "--key".toList ((List.range 32).map (· * 8))
      (initOpt ⟨[], 0, []⟩) (Or.inl rfl) (Or.inr rfl) (by decide)).1 rfl,
    (C5_decode_encode "hmacsha384".toList "-d".toList "--key".toList ((List.range 32).map (· * 8))
      (initOpt ⟨[], 0, []⟩) (Or.inl rfl) (Or.inr rfl) (by decide)).2 rfl rfl⟩

/-- C6: decoding equals the reference definition.  For a well-formed hex string
`s`, the key option (|s| = 64) stores 32 bytes and the data option (|s| even,
pointer still `NULL`) stores `|s|/2` bytes with `hmacDataLen = |s|/2`; in both,
byte `i` is `16 * hexval s[2i] + hexval s[2i+1]`. -/
theorem C6_decode_reference (cmd tk td s : List Char) (o : ioOptionType)
    (htk : tk = "-k".toList ∨ tk = "--key".toList)
    (htd : td = "-d".toList ∨ td = "--data".toList)
    (hs : wellFormedHex s) :
    (s.length = 64 → o.hmacKey.length = 32 →
      ∃ o1 : ioOptionType,
        processArgs [cmd, tk, s] o = some ⟨0, o1, []⟩ ∧ o1.hmacKey.length = 32 ∧
        ∀ i, i < 32 →
          o1.hmacKey.getD i 0 = 16 * hexval (s.getD (2 * i) ' ') + hexval (s.getD (2 * i + 1) ' '))
    ∧
    (s.length % 2 = 0 → o.hmacData = none →
      ∃ (o1 : ioOptionType) (buf : List Nat),
        processArgs [cmd, td, s] o = some ⟨0, o1, []⟩ ∧ o1.hmacData = some buf ∧
        o1.hmacDataLen = s.length / 2 ∧ buf.length = s.length / 2 ∧
        ∀ i, i < s.length / 2 →
          buf.getD i 0 = 16 * hexval (s.getD (2 * i) ' ') + hexval (s.getD (2 * i + 1) ' ')) := by
  constructor
  · intro hlen ho
    obtain ⟨hacc, hbytes, _, hl⟩ := decode_wellFormed 32 s (by omega) hs
    refine ⟨{ o with hmacKey := decodeRef s, hmacKeyArg := true }, ?_, hl, ?_⟩
    · unfold processArgs
      simp only [List.headD_cons, List.tail_cons]
      rw [processArgsLoop_key_decoded _ _ _ _ _ _ htk (wellFormedHex_notDash hs) hlen
        hacc ho, processArgsLoop_nil, hbytes]
    · intro i hi
      exact decodeRef_getD ' ' s.length s i (le_refl _) (by omega)
  · intro hlen ho
    obtain ⟨hacc, hbytes, _, hl⟩ := decode_wellFormed (s.length / 2) s (by omega) hs
    refine ⟨{ o with hmacData := some (decodeRef s), hmacDataLen := s.length / 2,
                     hmacDataArg := true }, decodeRef s, ?_, rfl, rfl, hl, ?_⟩
    · unfold processArgs
      simp only [List.headD_cons, List.tail_cons]
      rw [processArgsLoop_data_decoded _ _ _ _ _ _ htd (wellFormedHex_notDash hs)
        hacc ho, processArgsLoop_nil, hbytes]
    · intro i hi
      exact decodeRef_getD ' ' s.length s i (le_refl _) (by omega)

/-- Witness of C6: a 64-character string of mixed case, as key and as data. -/
theorem C6_decode_reference_witness :
    wellFormedHex "00112233445566778899aAbBcCdDeEfF00112233445566778899AabbCCddEEff".toList ∧
    (∃ o1 : ioOptionType,
      processArgs ["hmacsha384".toList, "-k".toList,
          "00112233445566778899aAbBcCdDeEfF00112233445566778899AabbCCddEEff".toList]
          (initOpt ⟨[], 0, []⟩) = some ⟨0, o1, []⟩ ∧ o1.hmacKey.length = 32 ∧
      ∀ i, i < 32 →
        o1.hmacKey.getD i 0 =
          16 * hexval ("00112233445566778899aAbBcCdDeEfF00112233445566778899AabbCCddEEff".toList.getD
            (2 * i) ' ')
          + hexval ("00112233445566778899aAbBcCdDeEfF00112233445566778899AabbCCddEEff".toList.getD
            (2 * i + 1) ' ')) ∧
    ∃ (o1 : ioOptionType) (buf : List Nat),
      processArgs ["hmacsha384".toList, "--data".toList,
          "00112233445566778899aAbBcCdDeEfF00112233445566778899AabbCCddEEff".toList]
          (initOpt ⟨[], 0, []⟩) = some ⟨0, o1, []⟩ ∧ o1.hmacData = some buf ∧
      o1.hmacDataLen =
        "00112233445566778899aAbBcCdDeEfF00112233445566778899AabbCCddEEff".toList.length / 2 ∧
      buf.length =
        "00112233445566778899aAbBcCdDeEfF00112233445566778899AabbCCddEEff".toList.length / 2 ∧
      ∀ i, i < "00112233445566778899aAbBcCdDeEfF00112233445566778899AabbCCddEEff".toList.length / 2 →
        buf.getD i 0 =
          16 * hexval ("00112233445566778899aAbBcCdDeEfF00112233445566778899AabbCCddEEff".toList.getD
            (2 * i) ' ')
          + hexval ("00112233445566778899aAbBcCdDeEfF00112233445566778899AabbCCddEEff".toList.getD
            (2 * i + 1) ' ') :=
  ⟨by decide!,
    (C6_decode_reference "hmacsha384".toList "-k".toList "--data".toList
      "00112233445566778899aAbBcCdDeEfF00112233445566778899AabbCCddEEff".toList
      (initOpt ⟨[], 0, []⟩) (Or.inl rfl) (Or.inr rfl) (by decide!)).1 (by decide!) rfl,
    (C6_decode_reference "hmacsha384".toList "-k".toList "--data".toList
      "00112233445566778899aAbBcCdDeEfF00112233445566778899AabbCCddEEff".toList
      (initOpt ⟨[], 0, []⟩) (Or.inl rfl) (Or.inr rfl) (by decide!)).2 (by decide!) rfl⟩

/-- C7: on a successful run (`processArgs` returns 0 and `main` exits with
`EXIT_SUCCESS`) standard output is exactly `HMACKEY=` + 64 lower-case hex
characters + newline, `HMACDATA=` + `2 * hmacDataLen` lower-case hex characters
+ newline, `HMACSHA384=` + 96 lower-case hex characters + newline. -/
theorem C7_report_shape {Ctx : Type} (P : HmacProvider Ctx) (u : Uninit)
    (argv : List (List Char)) (o : ioOptionType) (out : List Char) (res : RunResult)
    (hargs : processArgs argv (initOpt u) = some ⟨0, o, out⟩)
    (hrun : main P u argv = some res) (hexit : res.exitCode = EXIT_SUCCESS) :
    ∃ k d t : List Char,
      res.out = "HMACKEY=".toList ++ k ++ "\n".toList ++ "HMACDATA=".toList ++ d ++ "\n".toList
        ++ "HMACSHA384=".toList ++ t ++ "\n".toList ∧
      k.length = 64 ∧ lowerHex k ∧ d.length = 2 * o.hmacDataLen ∧ lowerHex d ∧
      t.length = 96 ∧ lowerHex t := by
  obtain ⟨buf, _, _, _, _, _, hres⟩ := main_success_inv P u argv o out res hargs hrun hexit
  subst hres
  refine ⟨printHexLoop o.hmacKey hmacKeyLen 0, printHexLoop buf o.hmacDataLen 0,
    printHexLoop (computeTag P u o buf) hmacResultLen 0, ?_,
    printHexLoop_length _ _ _, printHexLoop_lowerHex _ _ _,
    printHexLoop_length _ _ _, printHexLoop_lowerHex _ _ _,
    printHexLoop_length _ _ _, printHexLoop_lowerHex _ _ _⟩
  simp [report]

/-- Witness of C7: scenario S1 with OpenSSL working. -/
theorem C7_report_shape_witness :
    ∃ k d t : List Char,
      ("HMACKEY=0b0b0b0b0b0b0b0b0b0b0b0b0b0b0b0b0b0b0b0b0b0b0b0b0b0b0b0b0b0b0b0b\n"
          ++ "HMACDATA=4869205468657265\n"
          ++ "HMACSHA384=c3f1615943d1dd07a83bb644b97fb3dc2b8a936aa5389de2a3e9dd91bc3bae0d"
          ++ "0c30334a301733aa54ed5e1f0769e868\n").toList =
        "HMACKEY=".toList ++ k ++ "\n".toList ++ "HMACDATA=".toList ++ d ++ "\n".toList
        ++ "HMACSHA384=".toList ++ t ++ "\n".toList ∧
      k.length = 64 ∧ lowerHex k ∧ d.length = 2 * 8 ∧ lowerHex d ∧
      t.length = 96 ∧ lowerHex t :=
  C7_report_shape openssl ⟨[], 0, []⟩ _ _ _ _ processArgs_S1_eval main_S1_eval rfl

/-- C8: with OpenSSL working, the tag line of a successful run is
HMAC-SHA-384 of exactly the 32 bytes of `hmacKey` and the first `hmacDataLen`
bytes of the data buffer (one `HMAC_Init_ex`, one `HMAC_Update`, one
`HMAC_Final`); and for the key of 32 bytes `0x0b` with the data
`4869205468657265` the run prints the standard HMAC-SHA-384 value of that
pair. -/
theorem C8_tag_is_hmac (u : Uninit) :
    (∀ (argv : List (List Char)) (o : ioOptionType) (out : List Char) (buf : List Nat)
        (res : RunResult),
      processArgs argv (initOpt u) = some ⟨0, o, out⟩ → o.hmacData = some buf →
      main openssl u argv = some res → res.exitCode = EXIT_SUCCESS →
      res.out = "HMACKEY=".toList ++ printHexLoop o.hmacKey hmacKeyLen 0 ++ "\n".toList
        ++ "HMACDATA=".toList ++ printHexLoop buf o.hmacDataLen 0 ++ "\n".toList
        ++ "HMACSHA384=".toList
        ++ hexOfBytes (hmacSha384 (o.hmacKey.take 32) (buf.take o.hmacDataLen))
        ++ "\n".toList) ∧
    main openssl u ["hmacsha384".toList, "-k".toList,
        "0b0b0b0b0b0b0b0b0b0b0b0b0b0b0b0b0b0b0b0b0b0b0b0b0b0b0b0b0b0b0b0b".toList,
        "-d".toList, "4869205468657265".toList] =
      some ⟨EXIT_SUCCESS,
        ("HMACKEY=0b0b0b0b0b0b0b0b0b0b0b0b0b0b0b0b0b0b0b0b0b0b0b0b0b0b0b0b0b0b0b0b\n"
          ++ "HMACDATA=4869205468657265\n"
          ++ "HMACSHA384=c3f1615943d1dd07a83bb644b97fb3dc2b8a936aa5389de2a3e9dd91bc3bae0d"
          ++ "0c30334a301733aa54ed5e1f0769e868\n").toList⟩ := by
  have hgen : ∀ (argv : List (List Char)) (o : ioOptionType) (out : List Char) (buf : List Nat)
      (res : RunResult),
      processArgs argv (initOpt u) = some ⟨0, o, out⟩ → o.hmacData = some buf →
      main openssl u argv = some res → res.exitCode = EXIT_SUCCESS →
      res.out = "HMACKEY=".toList ++ printHexLoop o.hmacKey hmacKeyLen 0 ++ "\n".toList
        ++ "HMACDATA=".toList ++ printHexLoop buf o.hmacDataLen 0 ++ "\n".toList
        ++ "HMACSHA384=".toList
        ++ hexOfBytes (hmacSha384 (o.hmacKey.take 32) (buf.take o.hmacDataLen))
        ++ "\n".toList := by
    intro argv o out buf res hargs hbuf hrun hexit
    obtain ⟨buf1, hb1, _, _, _, _, hres⟩ := main_success_inv openssl u argv o out res hargs hrun hexit
    have hbb : buf1 = buf := by
      rw [hbuf] at hb1; exact (Option.some.inj hb1).symm
    subst hbb
    subst hres
    have ht : printHexLoop (computeTag openssl u o buf1) hmacResultLen 0
        = hexOfBytes (hmacSha384 (o.hmacKey.take 32) (buf1.take o.hmacDataLen)) := by
      rw [computeTag_openssl]
      have hl := hmacSha384_length (o.hmacKey.take hmacKeyLen) (buf1.take o.hmacDataLen)
      have : hmacResultLen
          = (hmacSha384 (o.hmacKey.take hmacKeyLen) (buf1.take o.hmacDataLen)).length := by
        rw [hl]; rfl
      rw [this, printHexLoop_all]
      rfl
    simp only [report, ht]
  refine ⟨hgen, ?_⟩
  have hargs : processArgs ["hmacsha384".toList, "-k".toList,
        "0b0b0b0b0b0b0b0b0b0b0b0b0b0b0b0b0b0b0b0b0b0b0b0b0b0b0b0b0b0b0b0b".toList,
        "-d".toList, "4869205468657265".toList] (initOpt u) =
      some ⟨0, ⟨true, true, List.replicate 32 11,
        some [72, 105, 32, 84, 104, 101, 114, 101], 8⟩, []⟩ := by
    unfold processArgs
    simp only [List.headD_cons, List.tail_cons]
    rw [processArgsLoop_key_decoded _ _ _ _ _ _ (Or.inl rfl) (by decide!) (by decide!)
        (by decide!) (initOpt_hmacKey_length u),
      processArgsLoop_data_decoded _ _ _ _ _ _ (Or.inl rfl) (by decide!) (by decide!) rfl,
      processArgsLoop_nil]
    have h1 : pairBytes
        "0b0b0b0b0b0b0b0b0b0b0b0b0b0b0b0b0b0b0b0b0b0b0b0b0b0b0b0b0b0b0b0b".toList 32 0
        = List.replicate 32 11 := by decide!
    have h2 : pairBytes "4869205468657265".toList ("4869205468657265".toList.length / 2) 0
        = [72, 105, 32, 84, 104, 101, 114, 101] := by decide!
    have h3 : "4869205468657265".toList.length / 2 = 8 := by decide!
    rw [h1, h2, h3]
  rw [main_report openssl u _ _ _ [72, 105, 32, 84, 104, 101, 114, 101] hargs rfl rfl rfl
    (by decide)]
  have hrep : report ⟨true, true, List.replicate 32 11,
        some [72, 105, 32, 84, 104, 101, 114, 101], 8⟩ [72, 105, 32, 84, 104, 101, 114, 101]
        (hmacSha384 ((List.replicate 32 11).take hmacKeyLen)
          ([72, 105, 32, 84, 104, 101, 114, 101].take 8))
      = ("HMACKEY=0b0b0b0b0b0b0b0b0b0b0b0b0b0b0b0b0b0b0b0b0b0b0b0b0b0b0b0b0b0b0b0b\n"
          ++ "HMACDATA=4869205468657265\n"
          ++ "HMACSHA384=c3f1615943d1dd07a83bb644b97fb3dc2b8a936aa5389de2a3e9dd91bc3bae0d"
          ++ "0c30334a301733aa54ed5e1f0769e868\n").toList := by decide!
  rw [computeTag_openssl, hrep]
  rfl

/-- C9 (counterexample): a provider whose `HMAC_Init_ex`, `HMAC_Update` and
`HMAC_Final` all report failure.  `main` still exits with `EXIT_SUCCESS` and
prints the `HMACSHA384=` line, showing the untouched result buffer. -/
theorem C9_counterexample :
    main failingProvider ⟨[], 0, []⟩ ["hmacsha384".toList, "-k".toList,
        "0b0b0b0b0b0b0b0b0b0b0b0b0b0b0b0b0b0b0b0b0b0b0b0b0b0b0b0b0b0b0b0b".toList,
        "-d".toList, "4869205468657265".toList] =
      some ⟨EXIT_SUCCESS,
        ("HMACKEY=0b0b0b0b0b0b0b0b0b0b0b0b0b0b0b0b0b0b0b0b0b0b0b0b0b0b0b0b0b0b0b0b\n"
          ++ "HMACDATA=4869205468657265\n"
          ++ "HMACSHA384=000000000000000000000000000000000000000000000000"
          ++ "000000000000000000000000000000000000000000000000\n").toList⟩ := by
  decide!

/-- C9 (amended): `main` never looks at the status of `HMAC_Init_ex`,
`HMAC_Update` or `HMAC_Final`.  Whatever statuses the provider reports, the exit
code and the output of every run are the same; a run that reaches the
computation prints the `HMACSHA384=` line with the contents of the result
buffer and exits with `EXIT_SUCCESS`. -/
theorem C9_status_ignored {Ctx : Type} (P : HmacProvider Ctx) (u : Uninit)
    (argv : List (List Char)) (s1 s2 s3 : Nat) :
    main (withStatus P s1 s2 s3) u argv = main P u argv ∧
    ∀ (o : ioOptionType) (out : List Char) (buf : List Nat),
      processArgs argv (initOpt u) = some ⟨0, o, out⟩ → o.hmacKeyArg = true →
      o.hmacDataArg = true → o.hmacData = some buf → o.hmacDataLen ≤ buf.length →
      main (withStatus P s1 s2 s3) u argv =
        some ⟨EXIT_SUCCESS, out ++ report o buf (computeTag P u o buf)⟩ := by
  have h : main (withStatus P s1 s2 s3) u argv = main P u argv := rfl
  refine ⟨h, ?_⟩
  intro o out buf hargs hk hd hb hl
  rw [h]
  exact main_report P u argv o out buf hargs hk hd hb hl

/-- C11: from any state of the scan, a key flag (resp. data flag) that is the
last argument, or is followed by a token whose first character is `-`, makes
`processArgs` return 1 with `Error: Missing HMAC Key parameter` (resp. `Error:
Missing HMAC Data parameter`); the option record is returned as it was. -/
theorem C11_missing_parameter (cmd tok : List Char) (rest : List (List Char))
    (o : ioOptionType) (out : List Char)
    (hrest : rest = [] ∨ ∃ v rest1, rest = v :: rest1 ∧ v.head? = some '-') :
    ((tok = "-k".toList ∨ tok = "--key".toList) →
      processArgsLoop cmd (tok :: rest) o out =
        some ⟨1, o, out ++ "Error: Missing HMAC Key parameter\n".toList⟩) ∧
    ((tok = "-d".toList ∨ tok = "--data".toList) →
      processArgsLoop cmd (tok :: rest) o out =
        some ⟨1, o, out ++ "Error: Missing HMAC Data parameter\n".toList⟩) := by
  apply processArgsLoop_missing
  rcases hrest with h | ⟨v, rest1, h, hv⟩
  · exact Or.inl h
  · refine Or.inr ⟨v, rest1, h, ?_⟩
    cases hn : notDash v with
    | false => rfl
    | true => exact absurd hv ((notDash_iff v).mp hn)

/-- Witness of C11: `-k` as the last argument, and `--data` followed by `-k`. -/
theorem C11_missing_parameter_witness :
    (([] : List (List Char)) = [] ∨
      ∃ v rest1, ([] : List (List Char)) = v :: rest1 ∧ v.head? = some '-') ∧
    processArgsLoop "hmacsha384".toList ["-k".toList] (initOpt ⟨[], 0, []⟩) [] =
      some ⟨1, initOpt ⟨[], 0, []⟩, [] ++ "Error: Missing HMAC Key parameter\n".toList⟩ ∧
    processArgsLoop "hmacsha384".toList ["--data".toList, "-k".toList, "00".toList]
        (initOpt ⟨[], 0, []⟩) [] =
      some ⟨1, initOpt ⟨[], 0, []⟩, [] ++ "Error: Missing HMAC Data parameter\n".toList⟩ :=
  ⟨Or.inl rfl,
    (C11_missing_parameter "hmacsha384".toList "-k".toList [] (initOpt ⟨[], 0, []⟩) []
      (Or.inl rfl)).1 (Or.inl rfl),
    (C11_missing_parameter "hmacsha384".toList "--data".toList ["-k".toList, "00".toList]
      (initOpt ⟨[], 0, []⟩) [] (Or.inr ⟨"-k".toList, ["00".toList], rfl, by decide⟩)).2
      (Or.inr rfl)⟩

/-- C12: after a scan that returned 0, `main` prints the report and exits with
`EXIT_SUCCESS` exactly when both flags are set.  Without the data option it
prints `Error HMAC Data Option Not Supplied`, with the data option and without
the key option it prints `Error HMAC Key Option Not Supplied`; in both cases
that line is the whole output and the exit code is `EXIT_FAILURE`. -/
theorem C12_both_required {Ctx : Type} (P : HmacProvider Ctx) (u : Uninit)
    (argv : List (List Char)) (o : ioOptionType) (out : List Char)
    (hargs : processArgs argv (initOpt u) = some ⟨0, o, out⟩) :
    (o.hmacDataArg = false →
      main P u argv =
        some ⟨EXIT_FAILURE, "Error HMAC Data Option Not Supplied\n".toList⟩) ∧
    (o.hmacDataArg = true → o.hmacKeyArg = false →
      main P u argv =
        some ⟨EXIT_FAILURE, "Error HMAC Key Option Not Supplied\n".toList⟩) ∧
    (o.hmacDataArg = true → o.hmacKeyArg = true →
      ∃ buf, o.hmacData = some buf ∧
        main P u argv = some ⟨EXIT_SUCCESS, report o buf (computeTag P u o buf)⟩) ∧
    ((∃ res, main P u argv = some res ∧ res.exitCode = EXIT_SUCCESS) ↔
      (o.hmacKeyArg = true ∧ o.hmacDataArg = true)) := by
  have hout : out = [] := by
    have := processArgsLoop_rc0_out (argv.headD []) argv.tail.length argv.tail (initOpt u) []
      ⟨0, o, out⟩ (le_refl _) hargs rfl
    simpa using this
  subst hout
  have hnd : o.hmacDataArg = false →
      main P u argv = some ⟨EXIT_FAILURE, "Error HMAC Data Option Not Supplied\n".toList⟩ := by
    intro hd
    simpa using main_no_data P u argv o [] hargs hd
  have hnk : o.hmacDataArg = true → o.hmacKeyArg = false →
      main P u argv = some ⟨EXIT_FAILURE, "Error HMAC Key Option Not Supplied\n".toList⟩ := by
    intro hd hk
    simpa using main_no_key P u argv o [] hargs hd hk
  have hboth : o.hmacDataArg = true → o.hmacKeyArg = true →
      ∃ buf, o.hmacData = some buf ∧
        main P u argv = some ⟨EXIT_SUCCESS, report o buf (computeTag P u o buf)⟩ := by
    intro hd hk
    obtain ⟨buf, hb, hl⟩ := processArgsLoop_data_inv (argv.headD []) argv.tail (initOpt u) []
      ⟨0, o, []⟩ hargs rfl (by intro h; simp [initOpt] at h) hd
    refine ⟨buf, hb, ?_⟩
    simpa using main_report P u argv o [] buf hargs hk hd hb hl
  refine ⟨hnd, hnk, hboth, ?_, ?_⟩
  · rintro ⟨res, hres, hex⟩
    cases hd : o.hmacDataArg with
    | false =>
      rw [hnd hd] at hres
      cases hres
      simp [EXIT_SUCCESS, EXIT_FAILURE] at hex
    | true =>
      cases hk : o.hmacKeyArg with
      | false =>
        rw [hnk hd hk] at hres
        cases hres
        simp [EXIT_SUCCESS, EXIT_FAILURE] at hex
      | true => exact ⟨rfl, rfl⟩
  · rintro ⟨hk, hd⟩
    obtain ⟨buf, _, hm⟩ := hboth hd hk
    exact ⟨_, hm, rfl⟩

/-- Witness of C12: scenario S3, only `-d 00`. -/
theorem C12_both_required_witness :
    processArgs ["hmacsha384".toList, "-d".toList, "00".toList] (initOpt ⟨[], 0, []⟩) =
      some ⟨0, ⟨false, true, List.replicate 32 0, some [0], 1⟩, []⟩ ∧
    main openssl ⟨[], 0, []⟩ ["hmacsha384".toList, "-d".toList, "00".toList] =
      some ⟨EXIT_FAILURE, "Error HMAC Key Option Not Supplied\n".toList⟩ :=
  ⟨by decide!,
    (C12_both_required openssl ⟨[], 0, []⟩ ["hmacsha384".toList, "-d".toList, "00".toList]
      ⟨false, true, List.replicate 32 0, some [0], 1⟩ [] (by decide!)).2.1 rfl rfl⟩

/-- C13: repeated options are last-writer-wins.  After a scan that returned 0,
the data fields are those of the last data value `d` (`hmacDataLen` is half its
length and bytes `0 … hmacDataLen-1` of the buffer are its decoded bytes) and
the key is the decoding of the last key value `k`; for well-formed hex values
these are the bytes of the reference decoding. -/
theorem C13_last_writer_wins (u : Uninit) (argv : List (List Char)) (o : ioOptionType)
    (out : List Char) (hargs : processArgs argv (initOpt u) = some ⟨0, o, out⟩) :
    (∀ d, lastValue isDataFlag argv.tail = some d →
      o.hmacDataArg = true ∧ o.hmacDataLen = d.length / 2 ∧
      ∃ buf, o.hmacData = some buf ∧ o.hmacDataLen ≤ buf.length ∧
        (∀ i, i < o.hmacDataLen → buf.getD i 0 = parsePair d i % 256) ∧
        (wellFormedHex d → d.length % 2 = 0 → buf.take o.hmacDataLen = decodeRef d)) ∧
    (∀ k, lastValue isKeyFlag argv.tail = some k →
      o.hmacKeyArg = true ∧ o.hmacKey.length = 32 ∧
        (∀ i, i < 32 → o.hmacKey.getD i 0 = parsePair k i % 256) ∧
        (wellFormedHex k → k.length = 64 → o.hmacKey = decodeRef k)) := by
  constructor
  · intro d hd
    have := processArgsLoop_last_data (argv.headD []) argv.tail.length argv.tail (initOpt u) []
      ⟨0, o, out⟩ (le_refl _) hargs rfl
    rw [hd] at this
    obtain ⟨h1, h2, buf, h3, h4, h5⟩ := this
    simp only at h1 h2 h3
    refine ⟨h1, h2, buf, h3, by rw [h2]; exact h4, ?_, ?_⟩
    · intro i hi
      rw [h2] at hi
      have e : (buf.take (d.length / 2)).getD i 0 = buf.getD i 0 := by
        rw [List.getD_eq_getElem?_getD, List.getD_eq_getElem?_getD,
          List.getElem?_take_of_lt hi]
      rw [← e, h5, pairBytes_getD d _ 0 i hi]
      simp
    · intro hw hev
      rw [h2, h5]
      exact (decode_wellFormed (d.length / 2) d (by omega) hw).2.1
  · intro k hk
    have := processArgsLoop_last_key (argv.headD []) argv.tail.length argv.tail (initOpt u) []
      ⟨0, o, out⟩ (le_refl _) hargs rfl (initOpt_hmacKey_length u)
    rw [hk] at this
    obtain ⟨h1, h2⟩ := this
    simp only at h1 h2
    refine ⟨h1, by rw [h2, pairBytes_length], ?_, ?_⟩
    · intro i hi
      rw [h2, pairBytes_getD k 32 0 i hi]
      simp
    · intro hw hl
      rw [h2]
      exact (decode_wellFormed 32 k (by omega) hw).2.1

/-- Witness of C13: two data options and two key options; the later, shorter
data value `22` and the later key win. -/
theorem C13_last_writer_wins_witness :
    (processArgs ["hmacsha384".toList, "-d".toList, "0011".toList, "-k".toList,
        "0000000000000000000000000000000000000000000000000000000000000000".toList,
        "-d".toList, "22".toList, "--key".toList,
        "0b0b0b0b0b0b0b0b0b0b0b0b0b0b0b0b0b0b0b0b0b0b0b0b0b0b0b0b0b0b0b0b".toList]
        (initOpt ⟨[], 0, []⟩) =
      some ⟨0, ⟨true, true, List.replicate 32 11, some [34, 17], 1⟩, []⟩ ∧
     lastValue isDataFlag ["-d".toList, "0011".toList, "-k".toList,
        "0000000000000000000000000000000000000000000000000000000000000000".toList,
        "-d".toList, "22".toList, "--key".toList,
        "0b0b0b0b0b0b0b0b0b0b0b0b0b0b0b0b0b0b0b0b0b0b0b0b0b0b0b0b0b0b0b0b".toList] =
      some "22".toList) ∧
    (true = true ∧ 1 = "22".toList.length / 2 ∧
      ∃ buf, some [34, 17] = some buf ∧ 1 ≤ buf.length ∧
        (∀ i, i < 1 → buf.getD i 0 = parsePair "22".toList i % 256) ∧
        (wellFormedHex "22".toList → "22".toList.length % 2 = 0 →
          buf.take 1 = decodeRef "22".toList)) :=
  ⟨⟨by decide!, by decide!⟩,
    (C13_last_writer_wins ⟨[], 0, []⟩
      ["hmacsha384".toList, "-d".toList, "0011".toList, "-k".toList,
        "0000000000000000000000000000000000000000000000000000000000000000".toList,
        "-d".toList, "22".toList, "--key".toList,
        "0b0b0b0b0b0b0b0b0b0b0b0b0b0b0b0b0b0b0b0b0b0b0b0b0b0b0b0b0b0b0b0b".toList]
      ⟨true, true, List.replicate 32 11, some [34, 17], 1⟩ []
      (by decide!)).1 "22".toList (by decide!)⟩

/-- C14 (evaluation at the failing input): after `-d 00` the buffer holds one
byte; the second option `-d 00112233` sets `hmacDataLen` to 4 and keeps the
one-byte buffer, because the allocation of line 156 is guarded by
`hmacData == NULL`; the loop then writes `hmacData[1]` outside the allocation,
so the execution has no defined behaviour. -/
theorem C14_longer_second_data_overflows {Ctx : Type} (P : HmacProvider Ctx) (u : Uninit) :
    processArgs ["hmacsha384".toList, "-d".toList, "00".toList] (initOpt u) =
      some ⟨0, { initOpt u with hmacData := some [0], hmacDataLen := 1, hmacDataArg := true },
        []⟩ ∧
    allocData "00112233".toList
        { initOpt u with hmacData := some [0], hmacDataLen := 1, hmacDataArg := true } =
      { initOpt u with hmacData := some [0], hmacDataLen := 4, hmacDataArg := true } ∧
    processArgs ["hmacsha384".toList, "-d".toList, "00".toList, "-d".toList,
        "00112233".toList] (initOpt u) = none ∧
    main P u ["hmacsha384".toList, "-d".toList, "00".toList, "-d".toList,
        "00112233".toList] = none := by
  have h1 : pairBytes "00".toList ("00".toList.length / 2) 0 = [0] := by decide!
  have h2 : "00".toList.length / 2 = 1 := by decide!
  have hfirst : ∀ rest, processArgsLoop "hmacsha384".toList
      ("-d".toList :: "00".toList :: rest) (initOpt u) [] =
      processArgsLoop "hmacsha384".toList rest
        { initOpt u with hmacData := some [0], hmacDataLen := 1, hmacDataArg := true } [] := by
    intro rest
    rw [processArgsLoop_data_decoded _ _ _ _ _ _ (Or.inl rfl) (by decide!) (by decide!) rfl,
      h1, h2]
  have halloc : allocData "00112233".toList
        { initOpt u with hmacData := some [0], hmacDataLen := 1, hmacDataArg := true } =
      { initOpt u with hmacData := some [0], hmacDataLen := 4, hmacDataArg := true } := by
    have : "00112233".toList.length / 2 = 4 := by decide!
    simp [allocData, this]
  have hargs : processArgs ["hmacsha384".toList, "-d".toList, "00".toList, "-d".toList,
        "00112233".toList] (initOpt u) = none := by
    unfold processArgs
    simp only [List.headD_cons, List.tail_cons]
    rw [hfirst, processArgsLoop_data_step _ _ _ _ _ _ (Or.inl rfl) (by decide!), halloc]
    have h4 : "00112233".toList.length / 2 = 4 := by decide!
    have hov := dataLoop_overflow "00112233".toList 4 [] [0]
      { initOpt u with hmacData := some [0], hmacDataLen := 4, hmacDataArg := true } rfl
      (by decide) (by decide!)
    simp only [List.length_nil] at hov
    rw [h4, hov]
  refine ⟨?_, halloc, hargs, ?_⟩
  · unfold processArgs
    simp only [List.headD_cons, List.tail_cons]
    rw [hfirst, processArgsLoop_nil]
  · unfold main
    rw [hargs]

/-- C15: the order of `-k` and `-d` is irrelevant.  For all strings `k` and
`d`, the runs on `-k k -d d` and on `-d d -k k` both end, with the same exit
code; when that code is `EXIT_SUCCESS` the two runs have the same output, and
`processArgs` returns the same record (same key bytes, same data bytes). -/
theorem C15_order_irrelevant {Ctx : Type} (P : HmacProvider Ctx) (u : Uninit)
    (cmd k d : List Char) :
    ∃ rA rB : RunResult,
      main P u [cmd, "-k".toList, k, "-d".toList, d] = some rA ∧
      main P u [cmd, "-d".toList, d, "-k".toList, k] = some rB ∧
      rA.exitCode = rB.exitCode ∧
      (rA.exitCode = EXIT_SUCCESS →
        rA = rB ∧
        processArgs [cmd, "-k".toList, k, "-d".toList, d] (initOpt u) =
          processArgs [cmd, "-d".toList, d, "-k".toList, k] (initOpt u)) := by
  have hfail : ∀ (argv : List (List Char)) (o1 : ioOptionType) (msg : List Char),
      processArgs argv (initOpt u) = some ⟨1, o1, [] ++ msg⟩ →
      main P u argv = some ⟨EXIT_FAILURE, [] ++ msg⟩ :=
    fun argv o1 msg h => main_rc1 P u argv o1 _ h
  have hne : EXIT_FAILURE ≠ EXIT_SUCCESS := by decide
  cases hk : keyOk k with
  | false =>
    -- the key value is refused in both orders
    obtain ⟨oA, mA, hA⟩ := processArgsLoop_key_bad cmd "-k".toList k ["-d".toList, d]
      (initOpt u) [] (Or.inl rfl) hk
    have hB : ∃ oB mB, processArgsLoop cmd ["-d".toList, d, "-k".toList, k] (initOpt u) [] =
        some ⟨1, oB, [] ++ mB⟩ := by
      cases hd : dataOk d with
      | false =>
        exact processArgsLoop_data_bad cmd "-d".toList d ["-k".toList, k] (initOpt u) []
          (Or.inl rfl) hd rfl
      | true =>
        simp only [dataOk, Bool.and_eq_true] at hd
        rw [processArgsLoop_data_decoded _ _ _ _ _ _ (Or.inl rfl) hd.1 hd.2 rfl]
        exact processArgsLoop_key_bad cmd "-k".toList k [] _ [] (Or.inl rfl) hk
    obtain ⟨oB, mB, hB⟩ := hB
    refine ⟨_, _, hfail _ oA mA (by simpa [processArgs] using hA),
      hfail _ oB mB (by simpa [processArgs] using hB), rfl, ?_⟩
    intro h
    exact absurd h hne
  | true =>
    simp only [keyOk, Bool.and_eq_true, decide_eq_true_eq] at hk
    obtain ⟨⟨hk1, hk2⟩, hk3⟩ := hk
    cases hd : dataOk d with
    | false =>
      -- the data value is refused in both orders
      have hA : ∃ oA mA, processArgsLoop cmd ["-k".toList, k, "-d".toList, d] (initOpt u) [] =
          some ⟨1, oA, [] ++ mA⟩ := by
        rw [processArgsLoop_key_decoded _ _ _ _ _ _ (Or.inl rfl) hk1 hk2 hk3
          (initOpt_hmacKey_length u)]
        exact processArgsLoop_data_bad cmd "-d".toList d [] _ [] (Or.inl rfl) hd rfl
      obtain ⟨oA, mA, hA⟩ := hA
      obtain ⟨oB, mB, hB⟩ := processArgsLoop_data_bad cmd "-d".toList d ["-k".toList, k]
        (initOpt u) [] (Or.inl rfl) hd rfl
      refine ⟨_, _, hfail _ oA mA (by simpa [processArgs] using hA),
        hfail _ oB mB (by simpa [processArgs] using hB), rfl, ?_⟩
      intro h
      exact absurd h hne
    | true =>
      simp only [dataOk, Bool.and_eq_true] at hd
      have hA : processArgs [cmd, "-k".toList, k, "-d".toList, d] (initOpt u) =
          some ⟨0, ⟨true, true, pairBytes k 32 0, some (pairBytes d (d.length / 2) 0),
            d.length / 2⟩, []⟩ := by
        unfold processArgs
        simp only [List.headD_cons, List.tail_cons]
        rw [processArgsLoop_key_decoded _ _ _ _ _ _ (Or.inl rfl) hk1 hk2 hk3
            (initOpt_hmacKey_length u),
          processArgsLoop_data_decoded _ _ _ _ _ _ (Or.inl rfl) hd.1 hd.2 rfl,
          processArgsLoop_nil]
      have hB : processArgs [cmd, "-d".toList, d, "-k".toList, k] (initOpt u) =
          some ⟨0, ⟨true, true, pairBytes k 32 0, some (pairBytes d (d.length / 2) 0),
            d.length / 2⟩, []⟩ := by
        unfold processArgs
        simp only [List.headD_cons, List.tail_cons]
        rw [processArgsLoop_data_decoded _ _ _ _ _ _ (Or.inl rfl) hd.1 hd.2 rfl,
          processArgsLoop_key_decoded _ _ _ _ _ _ (Or.inl rfl) hk1 hk2 hk3
            (by exact initOpt_hmacKey_length u),
          processArgsLoop_nil]
      refine ⟨_, _,
        main_report P u _ _ _ (pairBytes d (d.length / 2) 0) hA rfl rfl rfl
          (by simp [pairBytes_length]),
        main_report P u _ _ _ (pairBytes d (d.length / 2) 0) hB rfl rfl rfl
          (by simp [pairBytes_length]), rfl, ?_⟩
      intro _
      exact ⟨rfl, by rw [hA, hB]⟩

/-- C16: empty data is accepted.  For a well-formed 64-character hex key `k`,
the arguments `-k k -d ""` make `processArgs` return 0 with `hmacDataArg` set
and `hmacDataLen = 0`; the output is the key line, the line `HMACDATA=` with
nothing before its newline, and an `HMACSHA384=` line of 96 lower-case hex
characters. -/
theorem C16_empty_data {Ctx : Type} (P : HmacProvider Ctx) (u : Uninit) (cmd k : List Char)
    (hk : wellFormedHex k) (hklen : k.length = 64) :
    ∃ (o : ioOptionType) (tag : List Char),
      processArgs [cmd, "-k".toList, k, "-d".toList, []] (initOpt u) = some ⟨0, o, []⟩ ∧
      o.hmacDataArg = true ∧ o.hmacDataLen = 0 ∧
      main P u [cmd, "-k".toList, k, "-d".toList, []] =
        some ⟨EXIT_SUCCESS,
          "HMACKEY=".toList ++ lowercase k ++ "\n".toList
          ++ "HMACDATA=".toList ++ "\n".toList
          ++ "HMACSHA384=".toList ++ tag ++ "\n".toList⟩ ∧
      tag.length = 96 ∧ lowerHex tag := by
  obtain ⟨hka, hkb, hkp, hkl⟩ := decode_wellFormed 32 k (by omega) hk
  have hargs : processArgs [cmd, "-k".toList, k, "-d".toList, []] (initOpt u) =
      some ⟨0, ⟨true, true, decodeRef k, some [], 0⟩, []⟩ := by
    unfold processArgs
    simp only [List.headD_cons, List.tail_cons]
    rw [processArgsLoop_key_decoded _ _ _ _ _ _ (Or.inl rfl) (wellFormedHex_notDash hk) hklen hka
        (initOpt_hmacKey_length u),
      processArgsLoop_data_decoded cmd "-d".toList [] [] _ [] (Or.inl rfl) rfl rfl rfl,
      processArgsLoop_nil, hkb]
    rfl
  have hpk : printHexLoop (decodeRef k) hmacKeyLen 0 = lowercase k := by
    have : hmacKeyLen = (decodeRef k).length := by rw [hkl]; rfl
    rw [this, printHexLoop_all, hkp]
  refine ⟨_, printHexLoop (computeTag P u ⟨true, true, decodeRef k, some [], 0⟩ [])
    hmacResultLen 0, hargs, rfl, rfl, ?_, printHexLoop_length _ _ _,
    printHexLoop_lowerHex _ _ _⟩
  have hd0 : printHexLoop [] 0 0 = [] := rfl
  rw [main_report P u _ _ _ [] hargs rfl rfl rfl (by simp)]
  simp only [report, hpk, hd0, List.nil_append, List.append_nil]

/-- Witness of C16: scenario S2, the key of 64 zeros. -/
theorem C16_empty_data_witness :
    (wellFormedHex "0000000000000000000000000000000000000000000000000000000000000000".toList ∧
      "0000000000000000000000000000000000000000000000000000000000000000".toList.length = 64) ∧
    ∃ (o : ioOptionType) (tag : List Char),
      processArgs ["hmacsha384".toList, "-k".toList,
        "0000000000000000000000000000000000000000000000000000000000000000".toList,
        "-d".toList, []] (initOpt ⟨[], 0, []⟩) = some ⟨0, o, []⟩ ∧
      o.hmacDataArg = true ∧ o.hmacDataLen = 0 ∧
      main openssl ⟨[], 0, []⟩ ["hmacsha384".toList, "-k".toList,
        "0000000000000000000000000000000000000000000000000000000000000000".toList,
        "-d".toList, []] =
        some ⟨EXIT_SUCCESS,
          "HMACKEY=".toList
          ++ lowercase "0000000000000000000000000000000000000000000000000000000000000000".toList
          ++ "\n".toList
          ++ "HMACDATA=".toList ++ "\n".toList
          ++ "HMACSHA384=".toList ++ tag ++ "\n".toList⟩ ∧
      tag.length = 96 ∧ lowerHex tag :=
  ⟨⟨by decide!, by decide!⟩,
    C16_empty_data openssl ⟨[], 0, []⟩ "hmacsha384".toList
      "0000000000000000000000000000000000000000000000000000000000000000".toList
      (by decide!) (by decide!)⟩

/-- C17 (counterexample): an unknown token that holds newlines.  The run fails,
and its standard output is three lines, the second of which is `HMACKEY=00`:
the diagnostic echoes the token as it is. -/
theorem C17_counterexample :
    main openssl ⟨[], 0, []⟩ ["hmacsha384".toList, "x\nHMACKEY=00\ny".toList] =
      some ⟨EXIT_FAILURE,
        "Unknown option: \x27x\n".toList ++ "HMACKEY=00\n".toList ++ "y\x27\n".toList⟩ := by
  decide!

/-- C17 (amended): a run that ends with `EXIT_FAILURE` has printed exactly one
diagnostic and nothing of the report: one of the seven fixed diagnostics, or
`Unknown option: '<token>'` for a token of the argument list, echoed as it is.
When no argument holds a newline, that output is exactly one line, and the
line starts with none of `HMACKEY=`, `HMACDATA=`, `HMACSHA384=`. -/
theorem C17_failure_output {Ctx : Type} (P : HmacProvider Ctx) (u : Uninit)
    (argv : List (List Char)) (res : RunResult)
    (hrun : main P u argv = some res) (hfail : res.exitCode = EXIT_FAILURE) :
    (res.out ∈ fixedDiagnostics ∨ ∃ tok ∈ argv.tail, res.out = unknownOption tok) ∧
    ((∀ tok ∈ argv.tail, '\n' ∉ tok) → oneDiagnosticLine res.out) := by
  have hne : EXIT_SUCCESS ≠ EXIT_FAILURE := by decide
  have hmain : res.out ∈ fixedDiagnostics ∨ ∃ tok ∈ argv.tail, res.out = unknownOption tok := by
    cases hargs : processArgs argv (initOpt u) with
    | none => simp [main, hargs] at hrun
    | some r =>
      rcases processArgsLoop_outcome (argv.headD []) argv.tail.length argv.tail (initOpt u) [] r
        (le_refl _) hargs with ⟨h0, hout⟩ | ⟨h1, msg, hm, hmsg⟩ | ⟨h2, _⟩
      · -- the scan returned 0: a required option is missing
        obtain ⟨rc, o, out⟩ := r
        simp only at h0 hout
        subst h0
        subst hout
        cases hd : o.hmacDataArg with
        | false =>
          rw [main_no_data P u argv o [] hargs hd] at hrun
          cases hrun
          exact Or.inl (by simp [fixedDiagnostics])
        | true =>
          cases hk : o.hmacKeyArg with
          | false =>
            rw [main_no_key P u argv o [] hargs hd hk] at hrun
            cases hrun
            exact Or.inl (by simp [fixedDiagnostics])
          | true =>
            simp only [main, hargs] at hrun
            cases hb : o.hmacData with
            | none => simp [hd, hk, hb] at hrun
            | some buf =>
              simp [hd, hk, hb] at hrun
              obtain ⟨_, hrun⟩ := hrun
              subst hrun
              exact absurd hfail hne
      · -- the scan returned 1
        obtain ⟨rc, o, out⟩ := r
        simp only at h1 hm
        subst h1
        rw [main_rc1 P u argv o out hargs] at hrun
        cases hrun
        simp only [List.nil_append] at hm
        subst hm
        rcases hmsg with hmsg | hmsg
        · exact Or.inl (by simp [fixedDiagnostics, hmsg])
        · exact Or.inr hmsg
      · -- the scan returned 2
        obtain ⟨rc, o, out⟩ := r
        simp only at h2
        subst h2
        rw [main_rc2 P u argv o out hargs] at hrun
        cases hrun
        exact absurd hfail hne
  refine ⟨hmain, ?_⟩
  intro hnl
  rcases hmain with h | ⟨tok, htok, h⟩
  · exact fixedDiagnostics_oneLine _ h
  · rw [h]
    exact unknownOption_oneLine tok (hnl tok htok)

/-- Witness of C17: a valid key followed by a data flag without value. -/
theorem C17_failure_output_witness :
    (main openssl ⟨[], 0, []⟩ ["hmacsha384".toList, "-k".toList,
        "0b0b0b0b0b0b0b0b0b0b0b0b0b0b0b0b0b0b0b0b0b0b0b0b0b0b0b0b0b0b0b0b".toList, "-d".toList] =
      some ⟨EXIT_FAILURE, "Error: Missing HMAC Data parameter\n".toList⟩) ∧
    ("Error: Missing HMAC Data parameter\n".toList ∈ fixedDiagnostics ∨
      ∃ tok ∈ ["-k".toList,
        "0b0b0b0b0b0b0b0b0b0b0b0b0b0b0b0b0b0b0b0b0b0b0b0b0b0b0b0b0b0b0b0b".toList, "-d".toList],
        "Error: Missing HMAC Data parameter\n".toList = unknownOption tok) ∧
    ((∀ tok ∈ ["-k".toList,
        "0b0b0b0b0b0b0b0b0b0b0b0b0b0b0b0b0b0b0b0b0b0b0b0b0b0b0b0b0b0b0b0b".toList, "-d".toList],
        '\n' ∉ tok) →
      oneDiagnosticLine "Error: Missing HMAC Data parameter\n".toList) :=
  ⟨by decide!,
    C17_failure_output openssl ⟨[], 0, []⟩ ["hmacsha384".toList, "-k".toList,
        "0b0b0b0b0b0b0b0b0b0b0b0b0b0b0b0b0b0b0b0b0b0b0b0b0b0b0b0b0b0b0b0b".toList, "-d".toList]
      ⟨EXIT_FAILURE, "Error: Missing HMAC Data parameter\n".toList⟩ (by decide!) rfl⟩

/-- C18: help short-circuits.  From any state of the scan, `-h` or `--help`
prints the help block and returns 2 whatever follows it; when the arguments
before it were scanned with result 0, `processArgs` on the whole list returns
2 having printed only the help block, and `main` exits with `EXIT_SUCCESS`
with that block as its whole output (no tag line). -/
theorem C18_help_short_circuits {Ctx : Type} (P : HmacProvider Ctx) (u : Uninit)
    (cmd tok : List Char) (pre rest : List (List Char)) (o1 : ioOptionType) (out1 : List Char)
    (htok : tok = "-h".toList ∨ tok = "--help".toList)
    (hpre : processArgs (cmd :: pre) (initOpt u) = some ⟨0, o1, out1⟩) :
    (∀ (o : ioOptionType) (out : List Char),
      processArgsLoop cmd (tok :: rest) o out = some ⟨2, o, out ++ showHelp cmd⟩) ∧
    processArgs (cmd :: (pre ++ tok :: rest)) (initOpt u) = some ⟨2, o1, showHelp cmd⟩ ∧
    main P u (cmd :: (pre ++ tok :: rest)) = some ⟨EXIT_SUCCESS, showHelp cmd⟩ := by
  have hhelp := fun o out => processArgsLoop_help cmd tok rest o out htok
  have hpre1 : processArgsLoop cmd pre (initOpt u) [] = some ⟨0, o1, out1⟩ := by
    simpa [processArgs] using hpre
  have hargs : processArgs (cmd :: (pre ++ tok :: rest)) (initOpt u) =
      some ⟨2, o1, showHelp cmd⟩ := by
    unfold processArgs
    simp only [List.headD_cons, List.tail_cons]
    rw [processArgsLoop_append cmd (tok :: rest) pre.length pre (initOpt u) o1 [] out1
      (le_refl _) hpre1, hhelp]
    simp
  exact ⟨hhelp, hargs, main_rc2 P u _ o1 _ hargs⟩

/-- Witness of C18: `--help` after a valid key option and before other
arguments. -/
theorem C18_help_short_circuits_witness :
    (processArgs ["hmacsha384".toList, "-k".toList,
        "0b0b0b0b0b0b0b0b0b0b0b0b0b0b0b0b0b0b0b0b0b0b0b0b0b0b0b0b0b0b0b0b".toList]
        (initOpt ⟨[], 0, []⟩) =
      some ⟨0, ⟨true, false, List.replicate 32 11, none, 0⟩, []⟩) ∧
    (∀ (o : ioOptionType) (out : List Char),
      processArgsLoop "hmacsha384".toList ("--help".toList :: ["-d".toList, "zz".toList, "-x".toList])
        o out = some ⟨2, o, out ++ showHelp "hmacsha384".toList⟩) ∧
    processArgs ("hmacsha384".toList :: (["-k".toList,
        "0b0b0b0b0b0b0b0b0b0b0b0b0b0b0b0b0b0b0b0b0b0b0b0b0b0b0b0b0b0b0b0b".toList] ++
        "--help".toList :: ["-d".toList, "zz".toList, "-x".toList])) (initOpt ⟨[], 0, []⟩) =
      some ⟨2, ⟨true, false, List.replicate 32 11, none, 0⟩, showHelp "hmacsha384".toList⟩ ∧
    main openssl ⟨[], 0, []⟩ ("hmacsha384".toList :: (["-k".toList,
        "0b0b0b0b0b0b0b0b0b0b0b0b0b0b0b0b0b0b0b0b0b0b0b0b0b0b0b0b0b0b0b0b".toList] ++
        "--help".toList :: ["-d".toList, "zz".toList, "-x".toList])) =
      some ⟨EXIT_SUCCESS, showHelp "hmacsha384".toList⟩ :=
  ⟨by decide!,
    C18_help_short_circuits openssl ⟨[], 0, []⟩ "hmacsha384".toList "--help".toList
      ["-k".toList, "0b0b0b0b0b0b0b0b0b0b0b0b0b0b0b0b0b0b0b0b0b0b0b0b0b0b0b0b0b0b0b0b".toList]
      ["-d".toList, "zz".toList, "-x".toList] ⟨true, false, List.replicate 32 11, none, 0⟩ []
      (Or.inr rfl) (by decide!)⟩

/-- C19: the hex check of the key option, characterised.  For a 64-character
key value that does not begin with `-`: when some aligned pair (positions
`2i`, `2i+1`) is the text `-1`, `processArgs` returns 1 with `Error: Invalid
HMAC Key parameter not Hex Value`; otherwise the value is accepted, byte `i` of
the key being the low 8 bits of what `strtoul` returned for pair `i`, and the
scan goes on.  `-1` is the only text of two characters on which
`strtoul(…, 16)` returns `ULONG_MAX`, and a pair on which it converts nothing
(no leading space, sign or hex digit) is stored as 0. -/
theorem C19_hex_check_characterised (cmd tok v : List Char) (rest : List (List Char))
    (o : ioOptionType) (out : List Char)
    (htok : tok = "-k".toList ∨ tok = "--key".toList)
    (hdash : v.head? ≠ some '-') (hlen : v.length = 64) (ho : o.hmacKey.length = 32) :
    ((∃ i, i < 32 ∧ v.getD (2 * i) ' ' = '-' ∧ v.getD (2 * i + 1) ' ' = '1') →
      ∃ o1, processArgsLoop cmd (tok :: v :: rest) o out =
        some ⟨1, o1, out ++ "Error: Invalid HMAC Key parameter not Hex Value\n".toList⟩) ∧
    ((¬ ∃ i, i < 32 ∧ v.getD (2 * i) ' ' = '-' ∧ v.getD (2 * i + 1) ' ' = '1') →
      ∃ key : List Nat, key.length = 32 ∧ (∀ i, i < 32 → key.getD i 0 = parsePair v i % 256) ∧
        processArgsLoop cmd (tok :: v :: rest) o out =
          processArgsLoop cmd rest { o with hmacKey := key, hmacKeyArg := true } out) ∧
    (∀ a b : Char, strtoul16 (cstr [a, b, Char.ofNat 0]) = ULONG_MAX ↔ a = '-' ∧ b = '1') ∧
    (∀ a b : Char, digitVal16 a = none → isspace a = false → a ≠ '-' → a ≠ '+' →
      strtoul16 (cstr [a, b, Char.ofNat 0]) = 0) := by
  have hnd : notDash v = true := (notDash_iff v).mpr hdash
  have hacc : pairsAccepted v 32 0 = true ↔
      ¬ ∃ i, i < 32 ∧ v.getD (2 * i) ' ' = '-' ∧ v.getD (2 * i + 1) ' ' = '1' := by
    rw [pairsAccepted_iff]
    constructor
    · rintro h ⟨i, hi, h1, h2⟩
      exact h i (Nat.zero_le _) (by omega)
        ((parsePair_eq_ULONG_MAX v i (by omega)).mpr ⟨h1, h2⟩)
    · intro h i _ hi hp
      exact h ⟨i, by omega, (parsePair_eq_ULONG_MAX v i (by omega)).mp hp⟩
  refine ⟨?_, ?_, ?_, ?_⟩
  · intro hex
    have hf : (keyLoop v hmacKeyLen 0 o).1 = false := by
      rw [keyLoop_flag]
      cases hb : pairsAccepted v 32 0 with
      | false => exact hb
      | true => exact absurd hex (hacc.mp hb)
    rw [processArgsLoop_key_step cmd tok v rest o out htok hnd hlen, hf]
    exact ⟨_, rfl⟩
  · intro hno
    refine ⟨pairBytes v 32 0, pairBytes_length v 32 0, ?_, ?_⟩
    · intro i hi
      rw [pairBytes_getD v 32 0 i hi]
      simp
    · exact processArgsLoop_key_decoded cmd tok v rest o out htok hnd hlen (hacc.mpr hno) ho
  · intro a b
    rw [strtoul16_pair_eq_ULONG_MAX]
    constructor
    · rintro ⟨h1, h2⟩
      exact ⟨char_eq_of_toNat (by rw [h1]; rfl), char_eq_of_toNat (by rw [h2]; rfl)⟩
    · rintro ⟨h1, h2⟩
      rw [h1, h2]
      exact ⟨rfl, rfl⟩
  · intro a b hd hs h45 h43
    have e45 : a.toNat ≠ 45 := fun h => h45 (char_eq_of_toNat (by rw [h]; rfl))
    have e43 : a.toNat ≠ 43 := fun h => h43 (char_eq_of_toNat (by rw [h]; rfl))
    by_cases ha0 : a.toNat = 0
    · simp [cstr, ha0, strtoul16, skipSpace, takeSign, skipHexMarker, takeDigits16, ULONG_MAX]
    · by_cases hb0 : b.toNat = 0
      · simp [cstr, ha0, hb0, strtoul16, skipSpace, hs, takeSign, e45, e43, skipHexMarker,
          takeDigits16, hd, ULONG_MAX]
      · simp [cstr, ha0, hb0, strtoul16, skipSpace, hs, takeSign, e45, e43, skipHexMarker,
          takeDigits16, hd, ULONG_MAX]

/-- Witness of C19: the second pair of the value is `-1`. -/
theorem C19_hex_check_characterised_witness :
    ("00-1000000000000000000000000000000000000000000000000000000000000".toList.head? ≠ some '-' ∧
      "00-1000000000000000000000000000000000000000000000000000000000000".toList.length = 64 ∧
      (initOpt ⟨[], 0, []⟩).hmacKey.length = 32 ∧
      ∃ i, i < 32 ∧
        "00-1000000000000000000000000000000000000000000000000000000000000".toList.getD (2 * i) ' '
          = '-' ∧
        "00-1000000000000000000000000000000000000000000000000000000000000".toList.getD
          (2 * i + 1) ' ' = '1') ∧
    ∃ o1, processArgsLoop "hmacsha384".toList ["-k".toList,
        "00-1000000000000000000000000000000000000000000000000000000000000".toList,
        "-d".toList, "00".toList] (initOpt ⟨[], 0, []⟩) [] =
      some ⟨1, o1, [] ++ "Error: Invalid HMAC Key parameter not Hex Value\n".toList⟩ :=
  ⟨⟨by decide!, by decide!, by decide!, ⟨1, by decide!, by decide!, by decide!⟩⟩,
    (C19_hex_check_characterised "hmacsha384".toList "-k".toList
      "00-1000000000000000000000000000000000000000000000000000000000000".toList
      ["-d".toList, "00".toList] (initOpt ⟨[], 0, []⟩) [] (Or.inl rfl) (by decide!) (by decide!)
      (by decide!)).1 ⟨1, by decide!, by decide!, by decide!⟩⟩

end Hmacsha384
